import Mathlib

/- Verification of the rule DSL + evaluation + ranking engine of
   scripts/analyze_workbook.py (Shift Flight Deck).

   The Python source is shallowly embedded:
   - worksheet cell values become the inductive type Value; Python floats are
     modelled as exact rationals (the source only ever compares and adds the
     decimal constants appearing in cells and rule arguments, and the float
     image of decimal literals is order-isomorphic to their rational value on
     every comparison the engine performs);
   - datetimes are modelled as an integer count of seconds (proleptic
     Gregorian); `datetime.isoformat(timespec="seconds")` produces fixed-width
     strings whose lexicographic order coincides with the order of instants,
     so the Trigger timestamp is modelled as that integer instant;
   - each call of `datetime.now()` is one read of an external clock, modelled
     as a function from the index of the read (in program order) to an
     instant, threaded through evaluation;
   - fallible Python code (raised ValueError and friends) becomes
     Except String;
   - Python dicts keyed by cell values compare keys with `==`, under which
     `True == 1 == 1.0`; this is captured by the normalisation `normV`. -/

/-- A worksheet cell value as the engine sees it: None, a string, an int,
a float (modelled as an exact rational), a bool, or a datetime (modelled as
seconds in the proleptic Gregorian calendar). -/
inductive Value where
  | none
  | str (s : String)
  | int (n : Int)
  | float (q : ℚ)
  | bool (b : Bool)
  | dt (t : Int)
deriving DecidableEq, Repr

/-- Normal form of a Value under Python `==`/`hash`: numbers (ints, floats
and bools) compare by numeric value, everything else structurally. -/
inductive NormV where
  | num (q : ℚ)
  | s (v : String)
  | dtv (t : Int)
  | nil
deriving DecidableEq, Repr

/-- Python equality key of a cell value (True == 1 == 1.0). -/
def normV : Value → NormV
  | .none => .nil
  | .str s => .s s
  | .int n => .num n
  | .float q => .num q
  | .bool b => .num (if b then 1 else 0)
  | .dt t => .dtv t

/-- Python truthiness of a cell value. -/
def pyTruthy : Value → Bool
  | .none => false
  | .str s => s ≠ ""
  | .int n => n ≠ 0
  | .float q => q ≠ 0
  | .bool b => b
  | .dt _ => true

/-- Python `a or b` on cell values: the first operand if truthy, else the
second. -/
def pyOr (a b : Value) : Value := if pyTruthy a then a else b

/-- A row (one Schedule Slot / Hourly Sample / Downtime Event / Standard, or
one rule of the rule table): a mapping from column name to cell value, as a
finite association list. -/
def Row := List (String × Value)

/-- `row.get(key, default)` of a Python dict: the stored value when the key
is present (even when that value is None), the default otherwise. -/
def rowGetD (r : Row) (k : String) (d : Value) : Value :=
  match r.find? (fun p => p.1 == k) with
  | some p => p.2
  | Option.none => d

/-- `row.get(key)`: default None. -/
def rowGet (r : Row) (k : String) : Value := rowGetD r k .none

/-- A hit key: a tuple of entity-identifying cell values. -/
def Key := List Value
deriving instance DecidableEq for Key

/-- Membership of a key in a set of keys, under Python tuple equality
(elementwise `==`, hence via `normV`). -/
def keyMem (k : Key) (s : List Key) : Prop :=
  k.map normV ∈ s.map (fun x => x.map normV)

instance (k : Key) (s : List Key) : Decidable (keyMem k s) := by
  unfold keyMem; infer_instance

/-- Python `==` on two cell values. -/
def pyEqB (a b : Value) : Bool := normV a == normV b

/-- ASCII whitespace, as matched by Python `str.strip` and `\s`. -/
def pyIsSpace (c : Char) : Bool :=
  c = ' ' || c = '\t' || c = '\n' || c = '\r' || c = '\x0b' || c = '\x0c'

/-- Python `str.strip()` on a character list. -/
def pyStripL (cs : List Char) : List Char :=
  ((cs.dropWhile pyIsSpace).reverse.dropWhile pyIsSpace).reverse

/-- Python `str.strip()`. -/
def pyStrip (s : String) : String := String.mk (pyStripL s.toList)

/-- Python `str.lower()` (ASCII; the engine only lowercases its fixed ASCII
denylist and recommendation text). -/
def pyLower (s : String) : String := String.mk (s.toList.map Char.toLower)

/-- Python `str.upper()` (ASCII; the engine only uppercases the Enabled
flag). -/
def pyUpper (s : String) : String := String.mk (s.toList.map Char.toUpper)

/-- Substring test on character lists (Python `needle in hay`). -/
def subOf (n : List Char) : List Char → Bool
  | [] => n.isEmpty
  | c :: rest => n.isPrefixOf (c :: rest) || subOf n rest

/-- Python `needle in hay` for strings. -/
def strContains (hay needle : String) : Bool := subOf needle.toList hay.toList

/-- Python `","` `.join`. -/
def joinComma (parts : List String) : String := String.intercalate "," parts

/-- Python `s.split(",")`. -/
def pySplitComma (s : String) : List String := s.splitOn ","

/-- Digits of a character run, as a natural number (most significant
first). -/
def digitsToNat (cs : List Char) : Nat :=
  cs.foldl (fun acc c => acc * 10 + (c.toNat - '0'.toNat)) 0

/-- All characters are decimal digits and the run is nonempty. -/
def allDigits (cs : List Char) : Bool := !cs.isEmpty && cs.all Char.isDigit

/-- The regex `^-?\d+$` of the argument typer: an optional minus sign and
one or more digits. -/
def intLitB (cs : List Char) : Bool :=
  match cs with
  | '-' :: rest => allDigits rest
  | _ => allDigits cs

/-- Value of an integer literal accepted by `intLitB`. -/
def intLitVal (cs : List Char) : Int :=
  match cs with
  | '-' :: rest => -(digitsToNat rest : Int)
  | _ => (digitsToNat cs : Int)

/-- The regex `^-?\d+\.\d+$` of the argument typer: optional minus, digits,
a dot, digits. -/
def floatLitB (cs : List Char) : Bool :=
  let body := match cs with
    | '-' :: rest => rest
    | _ => cs
  let ip := body.takeWhile Char.isDigit
  match body.dropWhile Char.isDigit with
  | '.' :: frac => !ip.isEmpty && allDigits frac
  | _ => false

/-- Rational value of a float literal accepted by `floatLitB`. -/
def floatLitVal (cs : List Char) : ℚ :=
  let neg := match cs with
    | '-' :: _ => true
    | _ => false
  let body := match cs with
    | '-' :: rest => rest
    | _ => cs
  let ip := body.takeWhile Char.isDigit
  let frac := (body.dropWhile Char.isDigit).drop 1
  let mag : ℚ := (digitsToNat ip : ℚ) + (digitsToNat frac : ℚ) / ((10 : ℚ) ^ frac.length)
  if neg then -mag else mag

/-- Days since 1970-01-01 of a proleptic-Gregorian civil date
(Hinnant's algorithm, with truncating division as in its C++ original). -/
def daysFromCivil (y m d : Int) : Int :=
  let yy := if m ≤ 2 then y - 1 else y
  let era := (if 0 ≤ yy then yy else yy - 399).tdiv 400
  let yoe := yy - era * 400
  let mp := (m + 9) % 12
  let doy := (153 * mp + 2).tdiv 5 + d - 1
  let doe := yoe * 365 + yoe.tdiv 4 - yoe.tdiv 100 + doy
  era * 146097 + doe - 719468

/-- Civil date (year, month, day) of a count of days since 1970-01-01
(inverse of `daysFromCivil`). -/
def civilFromDays (z0 : Int) : Int × Int × Int :=
  let z := z0 + 719468
  let era := (if 0 ≤ z then z else z - 146096).tdiv 146097
  let doe := z - era * 146097
  let yoe := (doe - doe.tdiv 1460 + doe.tdiv 36524 - doe.tdiv 146096).tdiv 365
  let y := yoe + era * 400
  let doy := doe - (365 * yoe + yoe.tdiv 4 - yoe.tdiv 100)
  let mp := (5 * doy + 2).tdiv 153
  let d := doy - (153 * mp + 2).tdiv 5 + 1
  let m := mp + (if mp < 10 then 3 else -9)
  (y + (if m ≤ 2 then 1 else 0), m, d)

/-- A nonnegative integer rendered in decimal, left-padded with zeros to a
given width. -/
def padNum (w : Nat) (n : Int) : String :=
  let s := toString n.toNat
  String.mk (List.replicate (w - s.length) '0') ++ s

/-- Python `str(datetime)`: "YYYY-MM-DD HH:MM:SS" of the modelled instant. -/
def pyStrDT (t : Int) : String :=
  let days := t.fdiv 86400
  let secs := (t - days * 86400).toNat
  let c := civilFromDays days
  padNum 4 c.1 ++ "-" ++ padNum 2 c.2.1 ++ "-" ++ padNum 2 c.2.2 ++ " " ++
    padNum 2 (secs / 3600) ++ ":" ++ padNum 2 (secs / 60 % 60) ++ ":" ++ padNum 2 (secs % 60)

/-- Python `str(float)` for the exact decimal rationals the engine
manipulates (cell constants and parsed literals): the shortest decimal
expansion; rationals with no finite decimal expansion (which the source
cannot produce from decimal inputs) fall back to a num/den rendering. -/
def pyStrFloat (q : ℚ) : String :=
  match (List.range 31).find? (fun e => (q * (10 : ℚ) ^ e).den = 1) with
  | some 0 => toString q.num ++ ".0"
  | some e =>
    let n := (q * (10 : ℚ) ^ e).num
    let s := toString n.natAbs
    let s := if s.length ≤ e then String.mk (List.replicate (e + 1 - s.length) '0') ++ s else s
    (if q < 0 then "-" else "") ++
      String.mk (s.toList.take (s.length - e)) ++ "." ++ String.mk (s.toList.drop (s.length - e))
  | Option.none => toString q.num ++ "/" ++ toString q.den

/-- Python `str()` of a cell value. -/
def pyStr : Value → String
  | .none => "None"
  | .str s => s
  | .int n => toString n
  | .float q => pyStrFloat q
  | .bool b => if b then "True" else "False"
  | .dt t => pyStrDT t

/-- Python `float(str)`: optional surrounding whitespace and sign, digits
with optional fraction and exponent. (inf/nan and digit underscores are not
representable here and are treated as failures; the engine never feeds
them.) -/
def pyFloatStr (s : String) : Except String ℚ :=
  let cs := pyStripL s.toList
  let neg := match cs with
    | '-' :: _ => true
    | _ => false
  let body := match cs with
    | '-' :: r => r
    | '+' :: r => r
    | r => r
  let ip := body.takeWhile Char.isDigit
  let r1 := body.dropWhile Char.isDigit
  let fp := match r1 with
    | '.' :: r => r.takeWhile Char.isDigit
    | _ => []
  let r2 := match r1 with
    | '.' :: r => r.dropWhile Char.isDigit
    | r => r
  let eraw := match r2 with
    | 'e' :: r => some r
    | 'E' :: r => some r
    | [] => Option.none
    | _ :: _ => some ['x']
  let esign := match eraw with
    | some ('-' :: r) => (true, r)
    | some ('+' :: r) => (false, r)
    | some r => (false, r)
    | Option.none => (false, [])
  let eok := match eraw with
    | some _ => allDigits esign.2
    | Option.none => true
  let ev : Int := if esign.1 then -(digitsToNat esign.2 : Int) else (digitsToNat esign.2 : Int)
  if ip.isEmpty && fp.isEmpty then .error ("could not convert string to float: " ++ s)
  else if !eok then .error ("could not convert string to float: " ++ s)
  else
    let mag : ℚ := ((digitsToNat ip : ℚ) + (digitsToNat fp : ℚ) / (10 : ℚ) ^ fp.length) * (10 : ℚ) ^ ev
    .ok (if neg then -mag else mag)

/-- Python `float(x)` on a cell value (bool is an int in Python). -/
def pyFloat : Value → Except String ℚ
  | .int n => .ok n
  | .float q => .ok q
  | .bool b => .ok (if b then 1 else 0)
  | .str s => pyFloatStr s
  | .none => .error "float() argument must be a string or a real number, not NoneType"
  | .dt _ => .error "float() argument must be a string or a real number, not datetime.datetime"

/-- Python `int(str)`: optional surrounding whitespace, optional sign, one
or more digits. -/
def pyIntStr (s : String) : Except String Int :=
  let cs := pyStripL s.toList
  match cs with
  | '-' :: rest =>
    if allDigits rest then .ok (-(digitsToNat rest : Int))
    else .error ("invalid literal for int() with base 10: " ++ s)
  | '+' :: rest =>
    if allDigits rest then .ok (digitsToNat rest : Int)
    else .error ("invalid literal for int() with base 10: " ++ s)
  | rest =>
    if allDigits rest then .ok (digitsToNat rest : Int)
    else .error ("invalid literal for int() with base 10: " ++ s)

/-- Python `int(x)` on a cell value; floats truncate toward zero. -/
def pyInt : Value → Except String Int
  | .int n => .ok n
  | .bool b => .ok (if b then 1 else 0)
  | .float q => .ok (q.num.tdiv q.den)
  | .str s => pyIntStr s
  | .none => .error "int() argument must be a string, a bytes-like object or a real number, not NoneType"
  | .dt _ => .error "int() argument must be a string, a bytes-like object or a real number, not datetime.datetime"

/-- `to_float` of the source: numbers pass through, None and "" give 0.0, a
leading "=" (formula remnant) gives 0.0, unparseable text gives 0.0. -/
def to_float (v : Value) : ℚ :=
  match v with
  | .int n => n
  | .float q => q
  | .bool b => if b then 1 else 0
  | .none => 0
  | .str "" => 0
  | v =>
    let txt := pyStrip (pyStr v)
    if txt.startsWith "=" then 0
    else match pyFloatStr txt with
      | .ok q => q
      | .error _ => 0

/-- Number of days of a month in the proleptic Gregorian calendar. -/
def daysInMonth (y m : Int) : Int :=
  if m = 2 then (if y % 4 = 0 && (y % 100 ≠ 0 || y % 400 = 0) then 29 else 28)
  else if m = 4 || m = 6 || m = 9 || m = 11 then 30
  else 31

/-- A one-or-two-digit numeric field of `strptime`: two digits are taken
when their value lies in [lo2, hi2], else one digit with value in
[lo1, hi1] (mirrors CPython's per-directive regexes). -/
def parse12 (lo2 hi2 lo1 hi1 : Nat) (cs : List Char) : Option (Nat × List Char) :=
  match cs with
  | d1 :: d2 :: rest =>
    if d1.isDigit && d2.isDigit &&
        decide (lo2 ≤ digitsToNat [d1, d2]) && decide (digitsToNat [d1, d2] ≤ hi2) then
      some (digitsToNat [d1, d2], rest)
    else if d1.isDigit && decide (lo1 ≤ digitsToNat [d1]) && decide (digitsToNat [d1] ≤ hi1) then
      some (digitsToNat [d1], d2 :: rest)
    else Option.none
  | [d1] =>
    if d1.isDigit && decide (lo1 ≤ digitsToNat [d1]) && decide (digitsToNat [d1] ≤ hi1) then
      some (digitsToNat [d1], [])
    else Option.none
  | [] => Option.none

/-- The `%Y-%m-%d` head shared by the three accepted formats: a four-digit
year, then month and day. -/
def strpDate (cs : List Char) : Option (Int × Int × Int × List Char) :=
  match cs with
  | y1 :: y2 :: y3 :: y4 :: '-' :: rest =>
    if y1.isDigit && y2.isDigit && y3.isDigit && y4.isDigit then
      match parse12 1 12 1 9 rest with
      | some (m, rest2) =>
        match rest2 with
        | '-' :: rest3 =>
          match parse12 1 31 1 9 rest3 with
          | some (d, rest4) => some ((digitsToNat [y1, y2, y3, y4] : Int), (m : Int), (d : Int), rest4)
          | Option.none => Option.none
        | _ => Option.none
      | Option.none => Option.none
    else Option.none
  | _ => Option.none

/-- Calendar validity as enforced by the datetime constructor. -/
def validYMD (y m d : Int) : Bool :=
  decide (1 ≤ y) && decide (y ≤ 9999) && decide (1 ≤ d) && decide (d ≤ daysInMonth y m)

/-- Seconds since 1970-01-01 00:00:00 of a civil date-time. -/
def civilSecs (y m d hh mm ss : Int) : Int :=
  daysFromCivil y m d * 86400 + hh * 3600 + mm * 60 + ss

/-- `strptime` with format "%Y-%m-%d %H:%M" (whole-string match). -/
def strpF1 (s : String) : Option Int :=
  match strpDate s.toList with
  | some (y, m, d, ' ' :: rest) =>
    match parse12 0 23 0 9 rest with
    | some (hh, ':' :: rest2) =>
      match parse12 0 59 0 9 rest2 with
      | some (mm, []) => if validYMD y m d then some (civilSecs y m d hh mm 0) else Option.none
      | _ => Option.none
    | _ => Option.none
  | _ => Option.none

/-- `strptime` with format "%Y-%m-%dT%H:%M:%S" (whole-string match). -/
def strpF2 (s : String) : Option Int :=
  match strpDate s.toList with
  | some (y, m, d, 'T' :: rest) =>
    match parse12 0 23 0 9 rest with
    | some (hh, ':' :: rest2) =>
      match parse12 0 59 0 9 rest2 with
      | some (mm, ':' :: rest3) =>
        match parse12 0 59 0 9 rest3 with
        | some (ss, []) => if validYMD y m d then some (civilSecs y m d hh mm ss) else Option.none
        | _ => Option.none
      | _ => Option.none
    | _ => Option.none
  | _ => Option.none

/-- `strptime` with format "%Y-%m-%d" (whole-string match). -/
def strpF3 (s : String) : Option Int :=
  match strpDate s.toList with
  | some (y, m, d, []) => if validYMD y m d then some (civilSecs y m d 0 0 0) else Option.none
  | _ => Option.none

/-- `parse_dt` of the source: a native datetime passes through, falsy
values give None, otherwise the three formats are tried in order on
`str(v)`. -/
def parse_dt (v : Value) : Option Int :=
  match v with
  | .dt t => some t
  | _ =>
    if !pyTruthy v then Option.none
    else
      let s := pyStr v
      match strpF1 s with
      | some t => some t
      | Option.none =>
        match strpF2 s with
        | some t => some t
        | Option.none => strpF3 s

/-- Parsed keyword arguments of one call: an insertion-ordered dict from
argument name to typed literal. -/
def Args := List (String × Value)

/-- Python dict insert: replace in place when the key exists, else append. -/
def dictSetS (l : Args) (k : String) (v : Value) : Args :=
  match l with
  | [] => [(k, v)]
  | (k0, v0) :: rest =>
    if k0 = k then (k0, v) :: rest else (k0, v0) :: dictSetS rest k v

/-- `args.get(key, default)` on the parsed argument dict. -/
def argsGetD (l : Args) (k : String) (d : Value) : Value :=
  match l.find? (fun p => p.1 == k) with
  | some p => p.2
  | Option.none => d

/-- A function-name character of the DSL grammar: [A-Z_]. -/
def isUName (c : Char) : Bool := ('A' ≤ c && c ≤ 'Z') || c = '_'

/-- A lookahead key character of the argument splitter: [a-zA-Z_]. -/
def isKeyChar (c : Char) : Bool :=
  ('a' ≤ c && c ≤ 'z') || ('A' ≤ c && c ≤ 'Z') || c = '_'

/-- One match of `\s+AND\s+` anchored at the head of the text: consumes a
maximal whitespace run, the literal AND, and a maximal whitespace run, and
returns the remainder. (Both `\s+` runs are forced maximal: shrinking one
would put a whitespace character where A or a non-space is required.) -/
def matchAND (cs : List Char) : Option (List Char) :=
  let ws := cs.takeWhile pyIsSpace
  let r1 := cs.dropWhile pyIsSpace
  if ws.isEmpty then Option.none
  else if r1.take 3 = ['A', 'N', 'D'] then
    let r2 := r1.drop 3
    if (r2.takeWhile pyIsSpace).isEmpty then Option.none
    else some (r2.dropWhile pyIsSpace)
  else Option.none

/-- `re.split(r"\s+AND\s+", text)`: scan left to right, cutting at each
leftmost match. Structural recursion on a fuel that bounds the number of
scan steps (each step consumes at least one character, so any fuel of at
least the text length plus one never runs out). -/
def splitANDGo : Nat → List Char → List Char → List (List Char)
  | _, cur, [] => [cur.reverse]
  | 0, cur, rest => [cur.reverse ++ rest]
  | fuel + 1, cur, c :: rest =>
    match matchAND (c :: rest) with
    | some rem => cur.reverse :: splitANDGo fuel [] rem
    | Option.none => splitANDGo fuel (c :: cur) rest

/-- `re.split(r"\s+AND\s+", text)` on a string. -/
def splitAND (s : String) : List String :=
  (splitANDGo (s.toList.length + 1) [] s.toList).map String.mk

/-- One match of the argument separator `,\s*(?=[a-zA-Z_]+=)` anchored at
the head: a comma and a maximal whitespace run, provided the lookahead (one
or more key characters then "=") holds at the remainder. -/
def matchArgSep (cs : List Char) : Option (List Char) :=
  if cs.take 1 = [','] then
    let r1 := (cs.drop 1).dropWhile pyIsSpace
    if !(r1.takeWhile isKeyChar).isEmpty && (r1.dropWhile isKeyChar).take 1 = ['='] then
      some r1
    else Option.none
  else Option.none

/-- `re.split(r",\s*(?=[a-zA-Z_]+=)", raw)`: scan left to right, cutting at
each leftmost separator match. Structural recursion on a fuel bounding the
number of scan steps, as in `splitANDGo`. -/
def splitArgsGo : Nat → List Char → List Char → List (List Char)
  | _, cur, [] => [cur.reverse]
  | 0, cur, rest => [cur.reverse ++ rest]
  | fuel + 1, cur, c :: rest =>
    match matchArgSep (c :: rest) with
    | some rem => cur.reverse :: splitArgsGo fuel [] rem
    | Option.none => splitArgsGo fuel (c :: cur) rest

/-- The argument chunks of the raw argument text. -/
def splitArgsChunks (raw : List Char) : List (List Char) :=
  splitArgsGo (raw.length + 1) [] raw

/-- Python `part.split("=", 1)`: split at the first "=", if any. The text
up to the first "=" is exactly the longest "="-free run, and the remainder
either is empty (no "=" anywhere) or starts with that "=". -/
def splitFirstEq (p : List Char) : Option (List Char × List Char) :=
  let a := p.takeWhile (fun c => c ≠ '=')
  let b := p.dropWhile (fun c => c ≠ '=')
  if b.isEmpty then Option.none else some (a, b.drop 1)

/-- Python `v.strip('"')`: remove all leading and trailing double quotes. -/
def stripQuotes (cs : List Char) : List Char :=
  ((cs.dropWhile (fun c => c = '"')).reverse.dropWhile (fun c => c = '"')).reverse

/-- Literal typing of one argument value: `-?\d+\.\d+` is a float, `-?\d+`
an int, anything else stays a string. -/
def typeLit (cs : List Char) : Value :=
  if floatLitB cs then .float (floatLitVal cs)
  else if intLitB cs then .int (intLitVal cs)
  else .str (String.mk cs)

/-- The argument loop of `parse_call`: empty (after strip) chunks are
skipped; a chunk without "=" raises (tuple unpacking of a 1-element list);
otherwise the key is stripped and the value stripped, unquoted and typed. -/
def parseArgsGo (acc : Args) : List (List Char) → Except String Args
  | [] => .ok acc
  | p :: rest =>
    if (pyStripL p).isEmpty then parseArgsGo acc rest
    else
      match splitFirstEq p with
      | Option.none => .error "not enough values to unpack (expected 2, got 1)"
      | some (k, v) =>
        parseArgsGo
          (dictSetS acc (String.mk (pyStripL k)) (typeLit (stripQuotes (pyStripL v)))) rest

/-- Keyword arguments of the raw text between the call's parentheses. -/
def parseArgs (raw : List Char) : Except String Args :=
  parseArgsGo [] (splitArgsChunks raw)

/-- The `re.match(r"([A-Z_]+)\((.*)\)", text)` step of `parse_call` on the
stripped text: the maximal leading [A-Z_]+ run must be nonempty and be
followed immediately by "("; the greedy "(.*)" then extends to the last ")"
of the first line (`.` does not cross a newline, and `re.match` only
anchors the start, so trailing text after that ")" is tolerated). Returns
the function name and the raw text of group 2. -/
def extractCall (cs : List Char) : Option (String × List Char) :=
  let nm := cs.takeWhile isUName
  let r := cs.dropWhile isUName
  if nm.isEmpty then Option.none
  else if r.take 1 = ['('] then
    let line := (r.drop 1).takeWhile (fun c => c ≠ '\n')
    let rev := line.reverse.dropWhile (fun c => c ≠ ')')
    if rev.take 1 = [')'] then some (String.mk nm, (rev.drop 1).reverse)
    else Option.none
  else Option.none

/-- `parse_call` of the source: match the call shape on the stripped text
(ValueError "Invalid DSL expression" when the regex fails), then parse the
keyword arguments. -/
def parse_call (expr : String) : Except String (String × Args) :=
  match extractCall (pyStrip expr).toList with
  | Option.none => .error ("Invalid DSL expression: " ++ expr)
  | some (fn, raw) =>
    match parseArgs raw with
    | .error e => .error e
    | .ok args => .ok (fn, args)

/-- The call-list loop of `parse_iflogic`: parse each chunk in order,
propagating the first failure. -/
def parseCallsGo : List String → Except String (List (String × Args))
  | [] => .ok []
  | c :: rest =>
    match parse_call c with
    | .error e => .error e
    | .ok call =>
      match parseCallsGo rest with
      | .error e => .error e
      | .ok calls => .ok (call :: calls)

/-- `parse_iflogic` of the source: split the condition on `\s+AND\s+`,
strip each chunk, drop empty chunks, and parse each remaining chunk as one
call. -/
def parse_iflogic (iflogic : String) : Except String (List (String × Args)) :=
  parseCallsGo (((splitAND iflogic).map pyStrip).filter (fun c => c ≠ ""))

/-- The external wall clock: the instant returned by the n-th call of
`datetime.now()` during one evaluation pass, in program order. -/
def Clock := Nat → Int

/-- Membership of a single cell value in a Python set of values. -/
def vMem (v : Value) (s : List Value) : Prop := normV v ∈ s.map normV

instance (v : Value) (s : List Value) : Decidable (vMem v s) := by
  unfold vMem; infer_instance

/-- A Python set of keys built from a traversal, in first-occurrence
order. -/
def dedupKGo (seen : List Key) : List Key → List Key
  | [] => []
  | k :: rest => if keyMem k seen then dedupKGo seen rest else k :: dedupKGo (k :: seen) rest

/-- Deduplicate keys under Python tuple equality. -/
def dedupK (l : List Key) : List Key := dedupKGo [] l

/-- A Python set of values built from a traversal, in first-occurrence
order. -/
def dedupVGo (seen : List Value) : List Value → List Value
  | [] => []
  | v :: rest => if vMem v seen then dedupVGo seen rest else v :: dedupVGo (v :: seen) rest

/-- Deduplicate cell values under Python equality. -/
def dedupV (l : List Value) : List Value := dedupVGo [] l

/-- `counts[key] = counts.get(key, 0) + 1` on a key-indexed dict in
insertion order. -/
def dictIncr (d : List (Key × Nat)) (k : Key) : List (Key × Nat) :=
  match d with
  | [] => [(k, 1)]
  | (k0, n) :: rest =>
    if k0.map normV = k.map normV then (k0, n + 1) :: rest else (k0, n) :: dictIncr rest k

/-- `grouped.setdefault(key, []).append(v)` on a key-indexed dict in
insertion order. -/
def dictAppendK (d : List (Key × List ℚ)) (k : Key) (v : ℚ) : List (Key × List ℚ) :=
  match d with
  | [] => [(k, [v])]
  | (k0, vs) :: rest =>
    if k0.map normV = k.map normV then (k0, vs ++ [v]) :: rest
    else (k0, vs) :: dictAppendK rest k v

/-- `by_line.setdefault(line, []).append(v)` on a value-indexed dict. -/
def dictAppendV (d : List (Value × List ℚ)) (k : Value) (v : ℚ) : List (Value × List ℚ) :=
  match d with
  | [] => [(k, [v])]
  | (k0, vs) :: rest =>
    if normV k0 = normV k then (k0, vs ++ [v]) :: rest else (k0, vs) :: dictAppendV rest k v

/-- `d[line] = d.get(line, 0) + v` on a value-indexed dict. -/
def dictAddV (d : List (Value × ℚ)) (k : Value) (v : ℚ) : List (Value × ℚ) :=
  match d with
  | [] => [(k, v)]
  | (k0, v0) :: rest =>
    if normV k0 = normV k then (k0, v0 + v) :: rest else (k0, v0) :: dictAddV rest k v

/-- `d.get(key)` on a value-indexed dict. -/
def dictFindV (d : List (Value × ℚ)) (k : Value) : Option ℚ :=
  match d.find? (fun p => normV p.1 == normV k) with
  | some p => some p.2
  | Option.none => Option.none

/-- `rolling_count` of the source; `now` is the instant its single
`datetime.now()` call reads. Events whose chosen time field is absent or
unparseable are excluded; the rest are counted per key when their time is
within `window_hours` of `now`. -/
def rolling_count (now : Int) (events : List Row) (window_hours : Int)
    (cols : List String) : List (Key × Nat) :=
  let cutoff := now - window_hours * 3600
  events.foldl (fun counts e =>
    match parse_dt (pyOr (rowGet e "StartDT") (rowGet e "HourEndingDT")) with
    | some t => if cutoff ≤ t then dictIncr counts (cols.map (fun c => rowGet e c)) else counts
    | Option.none => counts) []

/-- Python `l[i:]` (an `Int` index: nonnegative drops from the front, a
negative index keeps the last `-i` elements). -/
def pySliceFrom (i : Int) (l : List ℚ) : List ℚ :=
  if 0 ≤ i then l.drop i.toNat else l.drop (l.length - (-i).toNat)

/-- The streak loop of `consecutive_below`: walk the window in arrival
order, counting the current run of values strictly below the threshold,
and report a hit as soon as the run length reaches `consecutive_hours`. -/
def belowScan (th : ℚ) (ch : Int) : Nat → List ℚ → Bool
  | _, [] => false
  | streak, v :: rest =>
    let s1 := if v < th then streak + 1 else 0
    if ch ≤ (s1 : Int) then true else belowScan th ch s1 rest

/-- The grouping pass of `consecutive_below`: group rows by the `groupby`
columns (in first-occurrence order), collecting the coerced metric values
in arrival order. -/
def groupRows (rows : List Row) (groupby : List String) (metric : String) :
    List (Key × List ℚ) :=
  rows.foldl (fun acc r =>
    dictAppendK acc (groupby.map (fun g => rowGet r g)) (to_float (rowGet r metric))) []

/-- `consecutive_below` of the source: per group, scan the window
`values[-consecutive_hours * 2:]` for a run of `consecutive_hours`
consecutive values strictly below the threshold. -/
def consecutive_below (metric_series : List Row) (threshold : ℚ) (consecutive_hours : Int)
    (groupby : List String) (metric : String) : List Key :=
  (groupRows metric_series groupby metric).filterMap (fun p =>
    if belowScan threshold consecutive_hours 0 (pySliceFrom (-consecutive_hours * 2) p.2)
    then some p.1 else Option.none)

/-- `repeats_same_value` of the source: a rolling count grouped by the
given columns plus the repeated field, filtered at `min_repeats`. -/
def repeats_same_value (now : Int) (rows : List Row) (field : String) (min_repeats : Int)
    (window_hours : Int) (cols : List String) : List Key :=
  ((rolling_count now rows window_hours (cols ++ [field])).filter
    (fun p => decide (min_repeats ≤ (p.2 : Int)))).map (fun p => p.1)

/-- `forecast_shortfall` of the source. -/
def forecast_shortfall (planned forecast pct_threshold : ℚ) : Bool :=
  if planned ≤ 0 then false else decide (pct_threshold ≤ (planned - forecast) / planned)

/-- `missing_standard` of the source: the (line, sku) pair is absent from
the standards index. -/
def missing_standard (line sku : Value) (standards : List Key) : Bool :=
  !(decide (keyMem [line, sku] standards))

/-- `datetime.min` of the sort key of `schedule_overlap` (0001-01-01). -/
def dtMin : Int := civilSecs 1 1 1 0 0 0

/-- Sort order of schedule slots: by start time, None sorting as
`datetime.min` (Python `x[0] or datetime.min`). -/
def slotLe (a b : Option Int × Option Int) : Prop :=
  a.1.getD dtMin ≤ b.1.getD dtMin

instance : DecidableRel slotLe := fun a b => by unfold slotLe; infer_instance

/-- The adjacent-pair loop of `schedule_overlap`: the previous end and the
current start must both be present and the start must strictly precede the
end. -/
def overlapScan : List (Option Int × Option Int) → Bool
  | a :: b :: rest =>
    (match a.2, b.1 with
     | some e, some s => decide (s < e)
     | _, _ => false) || overlapScan (b :: rest)
  | _ => false

/-- `schedule_overlap` of the source: sort the line's slots by start time
(a stable sort, as Python's) and look for an adjacent strict overlap. -/
def schedule_overlap (schedule_rows : List Row) (line : Value) : Bool :=
  let slots := (schedule_rows.filter (fun r => pyEqB (rowGet r "Line") line)).map
    (fun r => (parse_dt (rowGet r "StartDT"), parse_dt (rowGet r "EndDT")))
  overlapScan (List.insertionSort slotLe slots)

/-- `sanitize_recommendation` of the source: recommendation text containing
a denylisted disciplinary term (case-insensitively) is replaced whole by
the fixed coaching fallback. -/
def sanitize_recommendation (text : String) : String :=
  if ["disciplinary", "write-up", "punish", "terminate"].any
      (fun b => strContains (pyLower text) b) then
    "Provide coaching and process support to remove the operational barrier."
  else text

/-- The Trigger dataclass of the source. The timestamp field holds the
modelled instant of the `now().isoformat(timespec="seconds")` read; iso
strings of that fixed-width format compare lexicographically exactly as
their instants, so the string field is represented by the instant. -/
structure Trigger where
  rule_id : Value
  severity : Value
  trigger : String
  evidence : String
  recommendation : String
  scope : Value
  affected_entity : String
  timestamp : Int
  impact : ℚ
deriving DecidableEq, Repr

/-- `SEVERITY_ORDER.get(severity, 0)`: the rank of a severity cell, 0 for
anything outside the enum (including non-strings). -/
def sevRank (v : Value) : Int :=
  if v = .str "Urgent" then 4
  else if v = .str "Action" then 3
  else if v = .str "Watch" then 2
  else if v = .str "Info" then 1
  else 0

/-- The sort key of the ranker, as the source builds it:
`(-severity_rank, -impact, timestamp)` compared lexicographically (Python
tuple comparison), sorted ascending. -/
def rankKey (t : Trigger) : Lex (ℤ × Lex (ℚ × ℤ)) :=
  toLex (-(sevRank t.severity), toLex (-(t.impact), t.timestamp))

/-- Order of two triggers under the ranker's sort key. -/
def rankLe (a b : Trigger) : Prop := rankKey a ≤ rankKey b

instance : DecidableRel rankLe := fun a b => by unfold rankLe; infer_instance

instance : IsTotal Trigger rankLe := ⟨fun a b => le_total (rankKey a) (rankKey b)⟩

instance : IsTrans Trigger rankLe := ⟨fun _ _ _ h1 h2 => le_trans h1 h2⟩

/-- `triggers.sort(key=..., reverse=False)`: a stable ascending sort by the
rank key (insertion sort is stable, as Python's sort is). -/
def rankTriggers (l : List Trigger) : List Trigger := List.insertionSort rankLe l

/-- The populated components of a hit key: Python
`[x for x in h if x not in (None, "")]`. -/
def keptComps (h : Key) : Key :=
  h.filter (fun x => !(pyEqB x .none || pyEqB x (.str "")))

/-- One Trigger as the emission loop constructs it for hit key `h` of a
rule, with `now` the instant read for this trigger. -/
def mkTrigger (now : Int) (rule : Row) (h : Key) : Trigger :=
  let entity := joinComma ((keptComps h).map pyStr)
  { rule_id := rowGetD rule "RuleID" (.str "")
    severity := rowGetD rule "Severity" (.str "Info")
    trigger := pyStr (rowGetD rule "Description" (.str ""))
    evidence := pyStr (rowGetD rule "IfLogic" (.str ""))
    recommendation := sanitize_recommendation (pyStr (rowGetD rule "ThenRecommendation" (.str "")))
    scope := rowGetD rule "Scope" (.str "Line")
    affected_entity := if entity = "" then "Unknown" else entity
    timestamp := now
    impact := (entity.length : ℚ) }

/-- The per-rule emission loop: one Trigger per surviving hit key, each
with its own `datetime.now()` read (one clock tick per trigger, in
emission order). -/
def emitTriggers (clock : Clock) (k : Nat) (rule : Row) (keys : List Key) :
    List Trigger × Nat :=
  (keys.enum.map (fun p => mkTrigger (clock (k + p.1)) rule p.2), k + keys.length)

/-- `set.intersection(*rule_hits) if len(rule_hits) > 1 else
set(rule_hits[0])`: members of the first hit-set present in every other
hit-set. -/
def interOfHits : List (List Key) → List Key
  | [] => []
  | [s] => s
  | s :: rest => s.filter (fun x => decide (∀ t ∈ rest, keyMem x t))

/-- The four row collections one evaluation pass reads. -/
structure Env where
  sched : List Row
  hourly : List Row
  downtime : List Row
  standardsRows : List Row

/-- One arm of the `if fn == ...` dispatch of `evaluate_rules`: the
computed hit-set of a recognized call (with its argument coercions, which
may raise), or `none` for an unrecognized function name (the loop falls
through all branches and appends nothing). Returns the next clock index
(`ROLLING_COUNT` and `REPEAT_CAUSE` each read `now` once, inside
`rolling_count`). -/
def evalCall (clock : Clock) (k : Nat) (env : Env) (standards : List Key) (fn : String)
    (args : Args) : Except String (Option (List Key) × Nat) :=
  if fn = "CONSEC_BELOW" then
    let group := pySplitComma (pyStr (argsGetD args "groupby" (.str "Line")))
    match pyFloat (argsGetD args "threshold" (.float 0.7)) with
    | .error e => .error e
    | .ok th =>
      match pyInt (argsGetD args "hours" (.int 2)) with
      | .error e => .error e
      | .ok hrs =>
        .ok (some (consecutive_below env.hourly th hrs group
          (pyStr (argsGetD args "metric" (.str "TargetAttain")))), k)
  else if fn = "ROLLING_COUNT" then
    let group := (pySplitComma ((pyStr (argsGetD args "where" (.str "Line=\x7bLine\x7d"))).replace
      "=\x7bLine\x7d" "")).filter (fun g => g ≠ "")
    match pyInt (argsGetD args "window_hours" (.int 2)) with
    | .error e => .error e
    | .ok w =>
      let counts := rolling_count (clock k) env.downtime w (if group.isEmpty then ["Line"] else group)
      if counts.isEmpty then .ok (some [], k + 1)
      else
        match pyInt (argsGetD args "min" (.int 1)) with
        | .error e => .error e
        | .ok mn =>
          .ok (some ((counts.filter (fun p => decide (mn ≤ (p.2 : Int)))).map (fun p => p.1)), k + 1)
  else if fn = "MISSING_STANDARD" then
    .ok (some (dedupK ((env.hourly.filter (fun r =>
      missing_standard (rowGet r "Line") (rowGet r "SKU_Resolved") standards)).map
        (fun r => [rowGet r "Line", rowGet r "SKU_Resolved"]))), k)
  else if fn = "SCHEDULE_OVERLAP" then
    let lines := dedupV (env.sched.map (fun r => rowGet r "Line"))
    .ok (some ((lines.filter (fun l => schedule_overlap env.sched l)).map (fun l => [l])), k)
  else if fn = "REPEAT_CAUSE" then
    let group := pySplitComma (pyStr (argsGetD args "groupby" (.str "Line,Machine,Cause")))
    match pyInt (argsGetD args "min_repeats" (.int 3)) with
    | .error e => .error e
    | .ok mr =>
      match pyInt (argsGetD args "window_hours" (.int 12)) with
      | .error e => .error e
      | .ok w =>
        .ok (some (repeats_same_value (clock k) env.downtime "Cause" mr w group.dropLast), k + 1)
  else if fn = "FORECAST_SHORTFALL" then
    let by_line := env.hourly.foldl (fun acc r =>
      dictAppendV acc (rowGet r "Line") (to_float (rowGet r "ActualCases"))) []
    let planned := env.sched.foldl (fun acc r =>
      dictAddV acc (rowGet r "Line") (to_float (rowGet r "PlannedCases"))) []
    if by_line.isEmpty then .ok (some [], k)
    else
      match pyFloat (argsGetD args "pct" (.float 0.1)) with
      | .error e => .error e
      | .ok pct =>
        .ok (some (by_line.filterMap (fun p =>
          let rolling := (pySliceFrom (-3) p.2).sum / ((max (min 3 p.2.length) 1 : Nat) : ℚ)
          let fc := p.2.sum + rolling * 2
          if forecast_shortfall ((dictFindV planned p.1).getD 0) fc pct then some [p.1]
          else Option.none)), k)
  else .ok (Option.none, k)

/-- The `for fn, args in parsed` loop of `evaluate_rules`: each recognized
call appends its hit-set to `rule_hits`; an unrecognized call appends
nothing; a coercion failure aborts. -/
def buildRuleHits (clock : Clock) (env : Env) (standards : List Key) :
    List (String × Args) → Nat → Except String (List (List Key) × Nat)
  | [], k => .ok ([], k)
  | (fn, args) :: rest, k =>
    match evalCall clock k env standards fn args with
    | .error e => .error e
    | .ok (Option.none, k1) => buildRuleHits clock env standards rest k1
    | .ok (some hit, k1) =>
      match buildRuleHits clock env standards rest k1 with
      | .error e => .error e
      | .ok (hits, k2) => .ok (hit :: hits, k2)

/-- One enabled rule's slice of `evaluate_rules`: parse the condition
(uncaught ValueError on a DSL syntax error), build the per-call hit-sets,
skip when there are none (`if not rule_hits: continue`), else intersect and
emit one Trigger per surviving key. -/
def ruleTriggers (clock : Clock) (env : Env) (standards : List Key) (rule : Row) (k : Nat) :
    Except String (List Trigger × Nat) :=
  match parse_iflogic (pyStr (rowGetD rule "IfLogic" (.str ""))) with
  | .error e => .error e
  | .ok calls =>
    match buildRuleHits clock env standards calls k with
    | .error e => .error e
    | .ok (hits, k1) =>
      if hits.isEmpty then .ok ([], k1)
      else .ok (emitTriggers clock k1 rule (interOfHits hits))

/-- The `for rule in rules` loop of `evaluate_rules`: rules whose Enabled
flag does not stringify-and-uppercase to "TRUE" are skipped; the first
uncaught exception aborts the whole pass. -/
def evalRulesGo (clock : Clock) (env : Env) (standards : List Key) :
    List Row → Nat → List Trigger → Except String (List Trigger)
  | [], _, acc => .ok acc
  | rule :: rest, k, acc =>
    if pyUpper (pyStr (rowGetD rule "Enabled" (.str ""))) ≠ "TRUE" then
      evalRulesGo clock env standards rest k acc
    else
      match ruleTriggers clock env standards rule k with
      | .error e => .error e
      | .ok (ts, k1) => evalRulesGo clock env standards rest k1 (acc ++ ts)

/-- `evaluate_rules` of the source: build the standards index, run every
rule, and return the triggers sorted by the rank key. The clock supplies
the instants of the successive `datetime.now()` reads. -/
def evaluate_rules (clock : Clock) (rules schedule_rows hourly_rows downtime_rows
    standards_rows : List Row) : Except String (List Trigger) :=
  let standards := dedupK (standards_rows.map (fun r => [rowGet r "Line", rowGet r "SKU"]))
  let env : Env := ⟨schedule_rows, hourly_rows, downtime_rows, standards_rows⟩
  match evalRulesGo clock env standards rules 0 [] with
  | .error e => .error e
  | .ok triggers => .ok (rankTriggers triggers)


/- Concrete example data and claim-side (spec-worded) definitions used by
the theorems below. Rational constants of the examples are written as
normalized Rat structure literals so that concrete runs reduce inside the
kernel; each is linked to its decimal value in the theorems that use it. -/

deriving instance DecidableEq for Args

deriving instance DecidableEq for Except

/-- The rational 0.7 as a normalized structure literal. -/
def q07 : ℚ := ⟨7, 10, by norm_num, by norm_num⟩

/-- The rational 0.6 as a normalized structure literal. -/
def q06 : ℚ := ⟨3, 5, by norm_num, by norm_num⟩

/-- The rational 0.9 as a normalized structure literal. -/
def q09 : ℚ := ⟨9, 10, by norm_num, by norm_num⟩

/-- A trigger of the given severity with fixed impact and timestamp, for
the ranking example. -/
def c3TrigOf (sev : String) : Trigger :=
  { rule_id := .str "R", severity := .str sev, trigger := "", evidence := "",
    recommendation := "", scope := .str "Line", affected_entity := "X",
    timestamp := 0, impact := 0 }

/-- A malformed enabled rule: its condition fails the DSL grammar. -/
def c2RuleBad : Row :=
  [("RuleID", .str "R0"), ("Enabled", .str "TRUE"), ("IfLogic", .str "???bad")]

/-- A well-formed enabled rule whose condition holds on the data below. -/
def c2RuleGood : Row :=
  [("RuleID", .str "R9"), ("Enabled", .str "TRUE"),
   ("IfLogic", .str "SCHEDULE_OVERLAP()"), ("Severity", .str "Watch"),
   ("Scope", .str "Line"), ("Description", .str "overlap"),
   ("ThenRecommendation", .str "check the plan")]

/-- Two overlapping schedule slots on Line 1 (06:00-10:00 and 09:00-13:00,
as second offsets). -/
def c2Sched : List Row :=
  [[("Line", .str "Line 1"), ("StartDT", .dt 21600), ("EndDT", .dt 36000)],
   [("Line", .str "Line 1"), ("StartDT", .dt 32400), ("EndDT", .dt 46800)]]

/-- An enabled SCHEDULE_OVERLAP rule for the impact counterexample. -/
def c4Rule : Row :=
  [("RuleID", .str "R4"), ("Enabled", .str "TRUE"),
   ("IfLogic", .str "SCHEDULE_OVERLAP()"), ("Severity", .str "Watch"),
   ("Scope", .str "Line"), ("Description", .str "overlap"),
   ("ThenRecommendation", .str "check the plan")]

/-- Two overlapping schedule slots on Line 1. -/
def c4Sched : List Row :=
  [[("Line", .str "Line 1"), ("StartDT", .dt 0), ("EndDT", .dt 14400)],
   [("Line", .str "Line 1"), ("StartDT", .dt 10800), ("EndDT", .dt 25200)]]

/-- An enabled MISSING_STANDARD rule for the timestamp counterexample. -/
def c5Rule : Row :=
  [("RuleID", .str "R5"), ("Enabled", .str "TRUE"),
   ("IfLogic", .str "MISSING_STANDARD()"), ("Severity", .str "Action"),
   ("Scope", .str "Line"), ("Description", .str "no standard"),
   ("ThenRecommendation", .str "review standards")]

/-- Two hourly samples with distinct (line, resolved-SKU) pairs, both
missing from an empty standards table. -/
def c5Hourly : List Row :=
  [[("Line", .str "A"), ("SKU_Resolved", .str "B")],
   [("Line", .str "C"), ("SKU_Resolved", .str "D")]]

/-- Four hourly samples of group "Line 1" with metric values
[0.9, 0.6, 0.6, 0.9]. -/
def c6Rows : List Row :=
  [[("Line", .str "Line 1"), ("TargetAttain", .float q09)],
   [("Line", .str "Line 1"), ("TargetAttain", .float q06)],
   [("Line", .str "Line 1"), ("TargetAttain", .float q06)],
   [("Line", .str "Line 1"), ("TargetAttain", .float q09)]]

/-- Formalisation of the claim's wording, for refutation: the length of the
trailing run of consecutive window values strictly below the threshold. -/
def specTrailingRunLen (th : ℚ) (l : List ℚ) : Nat :=
  (l.reverse.takeWhile (fun v => decide (v < th))).length

/-- Formalisation of the claim's wording, for refutation: the (stripped)
text is exactly of the form NAME(...) — a nonempty run of uppercase
letters and underscores, "(", arbitrary content, and ")" at the very
end. -/
def specCallFormB (s : String) : Bool :=
  let cs := (pyStrip s).toList
  let nm := cs.takeWhile isUName
  !nm.isEmpty &&
    (match cs.dropWhile isUName with
     | '(' :: tail => decide (tail.getLast? = some ')')
     | _ => false)

/-- An enabled SCHEDULE_OVERLAP rule for the clock-dependence
counterexample. -/
def c8Rule : Row :=
  [("RuleID", .str "R8"), ("Enabled", .str "TRUE"),
   ("IfLogic", .str "SCHEDULE_OVERLAP()"), ("Severity", .str "Urgent"),
   ("Scope", .str "Line"), ("Description", .str "overlap"),
   ("ThenRecommendation", .str "re-plan")]

/-- Two overlapping schedule slots on Line 1. -/
def c8Sched : List Row :=
  [[("Line", .str "Line 1"), ("StartDT", .dt 0), ("EndDT", .dt 7200)],
   [("Line", .str "Line 1"), ("StartDT", .dt 3600), ("EndDT", .dt 10800)]]

/-- The six function names the evaluator's dispatch recognizes. -/
def knownFn (fn : String) : Bool :=
  fn = "CONSEC_BELOW" || fn = "ROLLING_COUNT" || fn = "MISSING_STANDARD" ||
    fn = "SCHEDULE_OVERLAP" || fn = "REPEAT_CAUSE" || fn = "FORECAST_SHORTFALL"

/-- An enabled two-call rule for the intersection witness. -/
def c1Rule : Row :=
  [("RuleID", .str "R1"), ("Enabled", .str "TRUE"),
   ("IfLogic", .str "SCHEDULE_OVERLAP() AND MISSING_STANDARD()")]

/-- An enabled rule whose condition is a single unrecognized call. -/
def c9Rule : Row :=
  [("RuleID", .str "R9"), ("Enabled", .str "TRUE"),
   ("IfLogic", .str "FROBNICATE(x=1)")]

/-- Somewhere in the list there is a contiguous run of exactly n values,
all strictly below the threshold. -/
def existsRunBelow (th : ℚ) (n : Nat) (l : List ℚ) : Prop :=
  ∃ p mid q : List ℚ, l = p ++ mid ++ q ∧ mid.length = n ∧ ∀ x ∈ mid, x < th

/-- Every argument chunk of the raw text either strips to empty (and is
skipped) or contains an "=". -/
def chunksOk (raw : List Char) : Prop :=
  ∀ p ∈ splitArgsChunks raw, pyStripL p ≠ [] → '=' ∈ p

/- Theorems. Each claim of the specification gets one theorem below, with a
counterexample theorem first when the claim fails on the source. -/

theorem rankLe_iff (a b : Trigger) :
    rankLe a b ↔ (sevRank b.severity < sevRank a.severity ∨
      (sevRank a.severity = sevRank b.severity ∧
        (b.impact < a.impact ∨ (a.impact = b.impact ∧ a.timestamp ≤ b.timestamp)))) := by
  unfold rankLe rankKey
  rw [Prod.Lex.le_iff, Prod.Lex.le_iff]
  simp [neg_lt_neg_iff, neg_inj]

/-- C3: the ranker returns a permutation of its input that is sorted by
severity rank descending (Urgent > Action > Watch > Info, anything else
rank 0), then impact descending, then timestamp ascending; in particular
triggers of severities [Watch, Urgent, Action] with equal impact and
timestamp come out ordered [Urgent, Action, Watch]. -/
theorem c3_ranker_orders_by_severity_impact_time :
    (∀ ts : List Trigger,
      (rankTriggers ts).Perm ts ∧
      (rankTriggers ts).Sorted (fun a b =>
        sevRank b.severity < sevRank a.severity ∨
        (sevRank a.severity = sevRank b.severity ∧
          (b.impact < a.impact ∨ (a.impact = b.impact ∧ a.timestamp ≤ b.timestamp))))) ∧
    rankTriggers [c3TrigOf "Watch", c3TrigOf "Urgent", c3TrigOf "Action"] =
      [c3TrigOf "Urgent", c3TrigOf "Action", c3TrigOf "Watch"] := by
  refine ⟨fun ts => ⟨List.perm_insertionSort rankLe ts, ?_⟩, by decide⟩
  exact (List.sorted_insertionSort rankLe ts).imp (fun h => (rankLe_iff _ _).mp h)

/-- C10: the recommendation sanitizer is idempotent: applying it twice
equals applying it once, since the coaching fallback text contains no
denylisted term and pass-through text passes through again. -/
theorem c10_sanitize_idempotent (s : String) :
    sanitize_recommendation (sanitize_recommendation s) = sanitize_recommendation s := by
  by_cases h : (["disciplinary", "write-up", "punish", "terminate"].any
      (fun b => strContains (pyLower s) b)) = true
  · have h1 : sanitize_recommendation s =
        "Provide coaching and process support to remove the operational barrier." := by
      unfold sanitize_recommendation
      rw [if_pos h]
    rw [h1]
    decide
  · have h1 : sanitize_recommendation s = s := by
      unfold sanitize_recommendation
      rw [if_neg h]
    rw [h1]
    exact h1

/-- C2 (code bug): a DSL syntax error in one enabled rule aborts the whole
evaluation pass with the uncaught ValueError — no trigger of the other,
well-formed enabled rule is produced — although that other rule alone does
produce its trigger. The spec requires the malformed rule to be skipped and
the rest of the pass to proceed; `evaluate_rules` calls `parse_iflogic`
with no exception handler. -/
theorem c2_parse_error_aborts_pass :
    evaluate_rules (fun _ => 0) [c2RuleBad, c2RuleGood] c2Sched [] [] [] =
      .error "Invalid DSL expression: ???bad" ∧
    (evaluate_rules (fun _ => 0) [c2RuleGood] c2Sched [] [] []).map
      (fun l => l.length) = .ok 1 := by
  constructor
  · rfl
  · rfl

/-- C4 counterexample: the trigger emitted for hit key ("Line 1",) carries
impact 6 — the character length of the entity label "Line 1" — while the
key has exactly 1 populated component; the claimed impact (the component
count, 1) is wrong: `float(len(entity))` measures the joined label string,
not the number of key components. -/
theorem c4_impact_counterexample :
    (evaluate_rules (fun _ => 0) [c4Rule] c4Sched [] [] []).map
      (fun l => l.map (fun t => t.impact)) = .ok [6] ∧
    (keptComps [Value.str "Line 1"]).length = 1 ∧ ((6 : ℚ) ≠ (1 : ℚ)) := by
  refine ⟨rfl, rfl, by norm_num⟩

/-- C5 counterexample: `datetime.now()` is read once per emitted trigger,
inside the emission loop, so with a clock that advances between the two
reads the two triggers of a single run carry different timestamps. -/
theorem c5_timestamp_counterexample :
    (evaluate_rules (fun n => (n : Int)) [c5Rule] [] c5Hourly [] []).map
      (fun l => l.map (fun t => t.timestamp)) = .ok [0, 1] ∧ (0 : Int) ≠ 1 := by
  refine ⟨rfl, by norm_num⟩

/-- C6 counterexample: on the claim's own example — values
[0.9, 0.6, 0.6, 0.9], threshold 0.7, hours 2 — the code reports a hit, yet
the trailing run of below-threshold values in the scanned window has length
0, not 2: the scan accepts a qualifying run anywhere in the window, not
only a trailing one. -/
theorem c6_trailing_run_counterexample :
    q07 = (0.7 : ℚ) ∧ q06 = (0.6 : ℚ) ∧ q09 = (0.9 : ℚ) ∧
    consecutive_below c6Rows q07 2 ["Line"] "TargetAttain" = [[Value.str "Line 1"]] ∧
    specTrailingRunLen q07 (pySliceFrom (-(2 : Int) * 2) [q09, q06, q06, q09]) = 0 ∧
    ¬(2 ≤ (0 : Nat)) := by
  refine ⟨?_, ?_, ?_, by decide, by decide, by norm_num⟩
  · unfold q07; rw [Rat.mk'_eq_divInt, Rat.divInt_eq_div]; norm_num
  · unfold q06; rw [Rat.mk'_eq_divInt, Rat.divInt_eq_div]; norm_num
  · unfold q09; rw [Rat.mk'_eq_divInt, Rat.divInt_eq_div]; norm_num

/-- C7 counterexample: "FOO(bar)" is exactly of the form NAME(...) yet
`parse_call` fails on it (the argument "bar" has no "=", so the tuple
unpacking of `part.split("=", 1)` raises); conversely "FOO(a=1)x" is not of
that form (trailing "x") yet parses successfully, because `re.match` only
anchors the start of the text. -/
theorem c7_wellformed_call_fails_counterexample :
    specCallFormB "FOO(bar)" = true ∧
    parse_call "FOO(bar)" = .error "not enough values to unpack (expected 2, got 1)" ∧
    specCallFormB "FOO(a=1)x" = false ∧
    parse_call "FOO(a=1)x" = .ok ("FOO", [("a", Value.int 1)]) := by
  refine ⟨by decide, by decide, by decide, by decide⟩

/-- C8 counterexample: two runs of the evaluator on equal rule tables and
equal row snapshots differ when the wall clock differs — the trigger's
timestamp is the clock reading — so the evaluator is not a function of its
row and rule inputs alone. -/
theorem c8_clock_dependence_counterexample :
    (evaluate_rules (fun _ => 0) [c8Rule] c8Sched [] [] []).map
      (fun l => l.map (fun t => t.timestamp)) = .ok [0] ∧
    (evaluate_rules (fun _ => 1) [c8Rule] c8Sched [] [] []).map
      (fun l => l.map (fun t => t.timestamp)) = .ok [1] ∧
    evaluate_rules (fun _ => 0) [c8Rule] c8Sched [] [] [] ≠
      evaluate_rules (fun _ => 1) [c8Rule] c8Sched [] [] [] := by
  refine ⟨rfl, rfl, by decide⟩

theorem keyMem_congr {k1 k2 : Key} (h : k1.map normV = k2.map normV) (t : List Key) :
    keyMem k1 t ↔ keyMem k2 t := by
  unfold keyMem
  rw [h]

/-- C1: for a rule whose condition parses to N calls, each of which
contributed a hit-set (so the built list has one hit-set per call), the
final hit-set the evaluator intersects and emits from is the exact set
intersection of those N hit-sets; for N=1 it is that single hit-set
unchanged; for N=0 the rule is skipped and emits no Trigger. -/
theorem c1_hit_set_intersection (clock : Clock) (env : Env) (standards : List Key)
    (rule : Row) (calls : List (String × Args)) (hits : List (List Key)) (k k1 : Nat)
    (hp : parse_iflogic (pyStr (rowGetD rule "IfLogic" (.str ""))) = .ok calls)
    (hb : buildRuleHits clock env standards calls k = .ok (hits, k1))
    (hlen : hits.length = calls.length) :
    (∀ key : Key, keyMem key (interOfHits hits) ↔ hits ≠ [] ∧ ∀ s ∈ hits, keyMem key s) ∧
    (∀ s : List Key, hits = [s] → interOfHits hits = s) ∧
    (calls = [] → ruleTriggers clock env standards rule k = .ok ([], k)) ∧
    (hits ≠ [] →
      ruleTriggers clock env standards rule k =
        .ok (emitTriggers clock k1 rule (interOfHits hits))) := by
  refine ⟨?_, ?_, ?_, ?_⟩
  · intro key
    match hits with
    | [] => simp [interOfHits, keyMem]
    | [s] => simp [interOfHits]
    | s :: s2 :: rest =>
      show keyMem key (s.filter fun x => decide (∀ t ∈ s2 :: rest, keyMem x t)) ↔ _
      constructor
      · intro hm
        unfold keyMem at hm
        rcases List.mem_map.mp hm with ⟨x, hx, hmap⟩
        rcases List.mem_filter.mp hx with ⟨hxs, hxp⟩
        have hall := of_decide_eq_true hxp
        refine ⟨by simp, ?_⟩
        intro t ht
        rcases List.mem_cons.mp ht with h1 | h2
        · subst h1
          exact (keyMem_congr hmap t).mp (List.mem_map.mpr ⟨x, hxs, rfl⟩)
        · exact (keyMem_congr hmap t).mp (hall t h2)
      · rintro ⟨-, hall⟩
        have hks : keyMem key s := hall s (by simp)
        unfold keyMem at hks
        rcases List.mem_map.mp hks with ⟨x, hx, hmap⟩
        have hxf : x ∈ s.filter fun y => decide (∀ t ∈ s2 :: rest, keyMem y t) := by
          refine List.mem_filter.mpr ⟨hx, decide_eq_true ?_⟩
          intro t ht
          exact (keyMem_congr hmap t).mpr (hall t (List.mem_cons_of_mem s ht))
        unfold keyMem
        exact List.mem_map.mpr ⟨x, hxf, hmap⟩
  · intro s hs
    subst hs
    rfl
  · intro hc
    subst hc
    simp [ruleTriggers, hp, buildRuleHits]
  · intro hne
    have hf : hits.isEmpty = false := by
      cases hits with
      | nil => exact absurd rfl hne
      | cons a l => rfl
    simp only [ruleTriggers, hp, hb, hf]
    rfl

/-- C1 witness: the two-call rule "SCHEDULE_OVERLAP() AND
MISSING_STANDARD()" over empty row collections: its per-call hit-sets are
both empty and the rule emits the triggers of their intersection. -/
theorem c1_hit_set_intersection_witness :
    ruleTriggers (fun _ => 0) ⟨[], [], [], []⟩ [] c1Rule 0 =
      .ok (emitTriggers (fun _ => 0) 0 c1Rule (interOfHits [[], []])) :=
  (c1_hit_set_intersection (fun _ => 0) ⟨[], [], [], []⟩ [] c1Rule
    [("SCHEDULE_OVERLAP", []), ("MISSING_STANDARD", [])] [[], []] 0 0 rfl rfl rfl).2.2.2
    (by decide)

theorem evalCall_unknown {clock : Clock} {k : Nat} {env : Env} {standards : List Key}
    {fn : String} {args : Args} (h : knownFn fn = false) :
    evalCall clock k env standards fn args = .ok (Option.none, k) := by
  simp only [knownFn, Bool.or_eq_false_iff, decide_eq_false_iff_not] at h
  obtain ⟨⟨⟨⟨⟨h1, h2⟩, h3⟩, h4⟩, h5⟩, h6⟩ := h
  unfold evalCall
  rw [if_neg h1, if_neg h2, if_neg h3, if_neg h4, if_neg h5, if_neg h6]

/-- C9: a parsed call whose function name is not one of the six recognized
names is silently ignored: the per-call loop builds the same hit-set list
(and consumes the same clock reads) as if the unrecognized calls were
absent, and a rule whose condition consists only of unrecognized calls
produces no Triggers and raises no error. -/
theorem c9_unknown_calls_ignored (clock : Clock) (env : Env) (standards : List Key) :
    (∀ calls : List (String × Args), ∀ k : Nat,
      buildRuleHits clock env standards calls k =
        buildRuleHits clock env standards (calls.filter (fun c => knownFn c.1)) k) ∧
    (∀ rule : Row, ∀ calls : List (String × Args), ∀ k : Nat,
      parse_iflogic (pyStr (rowGetD rule "IfLogic" (.str ""))) = .ok calls →
      calls.all (fun c => !knownFn c.1) = true →
      ruleTriggers clock env standards rule k = .ok ([], k)) := by
  have part1 : ∀ calls : List (String × Args), ∀ k : Nat,
      buildRuleHits clock env standards calls k =
        buildRuleHits clock env standards (calls.filter (fun c => knownFn c.1)) k := by
    intro calls
    induction calls with
    | nil => intro k; rfl
    | cons c rest ih =>
      intro k
      obtain ⟨fn, args⟩ := c
      by_cases hk : knownFn fn = true
      · have hfil : (((fn, args) :: rest).filter (fun c => knownFn c.1)) =
            (fn, args) :: rest.filter (fun c => knownFn c.1) := by
          simp [List.filter_cons, hk]
        rw [hfil]
        show (match evalCall clock k env standards fn args with
          | Except.error e => Except.error e
          | Except.ok (Option.none, k1) => buildRuleHits clock env standards rest k1
          | Except.ok (some hit, k1) =>
            match buildRuleHits clock env standards rest k1 with
            | Except.error e => Except.error e
            | Except.ok (hits, k2) => Except.ok (hit :: hits, k2)) =
          (match evalCall clock k env standards fn args with
          | Except.error e => Except.error e
          | Except.ok (Option.none, k1) =>
            buildRuleHits clock env standards (rest.filter (fun c => knownFn c.1)) k1
          | Except.ok (some hit, k1) =>
            match buildRuleHits clock env standards (rest.filter (fun c => knownFn c.1)) k1 with
            | Except.error e => Except.error e
            | Except.ok (hits, k2) => Except.ok (hit :: hits, k2))
        cases evalCall clock k env standards fn args with
        | error e => rfl
        | ok p =>
          obtain ⟨opt, k1⟩ := p
          cases opt with
          | none => exact ih k1
          | some hit =>
            show (match buildRuleHits clock env standards rest k1 with
              | Except.error e => Except.error e
              | Except.ok (hits, k2) => Except.ok (hit :: hits, k2)) =
              (match buildRuleHits clock env standards
                  (rest.filter (fun c => knownFn c.1)) k1 with
              | Except.error e => Except.error e
              | Except.ok (hits, k2) => Except.ok (hit :: hits, k2))
            rw [ih k1]
      · have hk0 : knownFn fn = false := by
          cases hkb : knownFn fn with
          | true => exact absurd hkb hk
          | false => rfl
        have hfil : (((fn, args) :: rest).filter (fun c => knownFn c.1)) =
            rest.filter (fun c => knownFn c.1) := by
          simp [List.filter_cons, hk0]
        rw [hfil]
        show (match evalCall clock k env standards fn args with
          | Except.error e => Except.error e
          | Except.ok (Option.none, k1) => buildRuleHits clock env standards rest k1
          | Except.ok (some hit, k1) =>
            match buildRuleHits clock env standards rest k1 with
            | Except.error e => Except.error e
            | Except.ok (hits, k2) => Except.ok (hit :: hits, k2)) =
          buildRuleHits clock env standards (rest.filter (fun c => knownFn c.1)) k
        rw [evalCall_unknown hk0]
        exact ih k
  refine ⟨part1, ?_⟩
  intro rule calls k hp hall
  have hfil : calls.filter (fun c => knownFn c.1) = [] := by
    rw [List.filter_eq_nil_iff]
    intro c hc
    have := List.all_eq_true.mp hall c hc
    simp only [Bool.not_eq_true'] at this
    simp [this]
  have hb : buildRuleHits clock env standards calls k = .ok ([], k) := by
    rw [part1 calls k, hfil]
    rfl
  simp [ruleTriggers, hp, hb]

/-- C9 witness: the rule "FROBNICATE(x=1)" — a single unrecognized call —
evaluates to no triggers and no error over empty row collections. -/
theorem c9_unknown_calls_witness :
    ruleTriggers (fun _ => 0) ⟨[], [], [], []⟩ [] c9Rule 0 = .ok ([], 0) :=
  (c9_unknown_calls_ignored (fun _ => 0) ⟨[], [], [], []⟩ []).2 c9Rule
    [("FROBNICATE", [("x", Value.int 1)])] 0 rfl (by decide)

theorem ruleTriggers_ok_shape {clock : Clock} {env : Env} {standards : List Key}
    {rule : Row} {k : Nat} {ts : List Trigger} {k1 : Nat}
    (h : ruleTriggers clock env standards rule k = .ok (ts, k1)) :
    ts = [] ∨ ∃ k2 : Nat, ∃ keys : List Key, ts = (emitTriggers clock k2 rule keys).1 := by
  unfold ruleTriggers at h
  cases hp : parse_iflogic (pyStr (rowGetD rule "IfLogic" (.str ""))) with
  | error e => rw [hp] at h; exact Except.noConfusion h
  | ok calls =>
    rw [hp] at h
    have hred : (match buildRuleHits clock env standards calls k with
        | Except.error e => Except.error e
        | Except.ok (hits, k1) =>
          if hits.isEmpty = true then Except.ok ([], k1)
          else Except.ok (emitTriggers clock k1 rule (interOfHits hits))) =
        Except.ok (ts, k1) := h
    cases hb : buildRuleHits clock env standards calls k with
    | error e => rw [hb] at hred; exact Except.noConfusion hred
    | ok p =>
      obtain ⟨hits, k2⟩ := p
      rw [hb] at hred
      have h2 : (if hits.isEmpty = true then Except.ok (ε := String) (([] : List Trigger), k2)
          else Except.ok (emitTriggers clock k2 rule (interOfHits hits))) =
            Except.ok (ts, k1) := hred
      split_ifs at h2 with he
      · left
        exact (congrArg Prod.fst (Except.ok.inj h2)).symm
      · right
        exact ⟨k2, interOfHits hits, (congrArg Prod.fst (Except.ok.inj h2)).symm⟩

theorem emitTriggers_mem {clock : Clock} {k : Nat} {rule : Row} {keys : List Key}
    {t : Trigger} (h : t ∈ (emitTriggers clock k rule keys).1) :
    ∃ kk : Nat, ∃ hk : Key, t = mkTrigger (clock kk) rule hk := by
  unfold emitTriggers at h
  simp only [List.mem_map] at h
  obtain ⟨p, hp, ht⟩ := h
  exact ⟨k + p.1, p.2, ht.symm⟩

theorem evalRulesGo_mem_prop (clock : Clock) (env : Env) (standards : List Key)
    (P : Trigger → Prop)
    (hP : ∀ kk : Nat, ∀ rule : Row, ∀ hk : Key, P (mkTrigger (clock kk) rule hk)) :
    ∀ rules : List Row, ∀ k : Nat, ∀ acc l : List Trigger,
      (∀ t ∈ acc, P t) → evalRulesGo clock env standards rules k acc = .ok l →
      ∀ t ∈ l, P t := by
  intro rules
  induction rules with
  | nil =>
    intro k acc l hacc h t ht
    have h2 : acc = l := Except.ok.inj h
    subst h2
    exact hacc t ht
  | cons rule rest ih =>
    intro k acc l hacc h t ht
    unfold evalRulesGo at h
    by_cases he : (pyUpper (pyStr (rowGetD rule "Enabled" (.str ""))) ≠ "TRUE")
    · rw [if_pos he] at h
      exact ih k acc l hacc h t ht
    · rw [if_neg he] at h
      cases hr : ruleTriggers clock env standards rule k with
      | error e => rw [hr] at h; exact Except.noConfusion h
      | ok p =>
        obtain ⟨ts, k1⟩ := p
        rw [hr] at h
        refine ih k1 (acc ++ ts) l ?_ h t ht
        intro u hu
        rcases List.mem_append.mp hu with h1 | h2
        · exact hacc u h1
        · rcases ruleTriggers_ok_shape hr with h3 | ⟨k2, keys, h3⟩
          · rw [h3] at h2
            cases h2
          · rw [h3] at h2
            rcases emitTriggers_mem h2 with ⟨kk, hk, hu2⟩
            rw [hu2]
            exact hP kk rule hk

theorem evaluate_rules_mem_prop (clock : Clock)
    (rules sched hourly downtime stands : List Row) (res : List Trigger)
    (P : Trigger → Prop)
    (hP : ∀ kk : Nat, ∀ rule : Row, ∀ hk : Key, P (mkTrigger (clock kk) rule hk))
    (hok : evaluate_rules clock rules sched hourly downtime stands = .ok res) :
    ∀ t ∈ res, P t := by
  simp only [evaluate_rules] at hok
  cases hgo : evalRulesGo clock ⟨sched, hourly, downtime, stands⟩
      (dedupK (stands.map (fun r => [rowGet r "Line", rowGet r "SKU"]))) rules 0 [] with
  | error e => rw [hgo] at hok; exact Except.noConfusion hok
  | ok triggers =>
    rw [hgo] at hok
    have hres : res = rankTriggers triggers := (Except.ok.inj hok).symm
    intro t ht
    rw [hres] at ht
    have hmem : t ∈ triggers := (List.perm_insertionSort rankLe triggers).mem_iff.mp ht
    exact evalRulesGo_mem_prop clock ⟨sched, hourly, downtime, stands⟩ _ P hP rules 0 []
      triggers (by intro u hu; cases hu) hgo t hmem

/-- C4 (amended): every trigger the evaluator emits has impact equal to the
character length of its affected-entity label — the key's populated
components joined by commas — with impact 0 and label "Unknown" when all
components are empty; the impact is not the number of populated
components. -/
theorem c4_impact_equals_entity_label_length (clock : Clock)
    (rules sched hourly downtime stands : List Row) (res : List Trigger)
    (hok : evaluate_rules clock rules sched hourly downtime stands = .ok res) :
    ∀ t ∈ res, t.impact = (t.affected_entity.length : ℚ) ∨
      (t.affected_entity = "Unknown" ∧ t.impact = 0) := by
  refine evaluate_rules_mem_prop clock rules sched hourly downtime stands res _ ?_ hok
  intro kk rule hk
  unfold mkTrigger
  by_cases hent : joinComma ((keptComps hk).map pyStr) = ""
  · right
    refine ⟨by simp [hent], by simp [hent]⟩
  · left
    simp [hent]

/-- C4 witness: the amended rule applied to the overlap run: the emitted
trigger's impact equals the length of its label "Line 1". -/
theorem c4_impact_witness :
    (mkTrigger 0 c4Rule [Value.str "Line 1"]).impact =
      ((mkTrigger 0 c4Rule [Value.str "Line 1"]).affected_entity.length : ℚ) ∨
    ((mkTrigger 0 c4Rule [Value.str "Line 1"]).affected_entity = "Unknown" ∧
      (mkTrigger 0 c4Rule [Value.str "Line 1"]).impact = 0) :=
  c4_impact_equals_entity_label_length (fun _ => 0) [c4Rule] c4Sched [] [] []
    [mkTrigger 0 c4Rule [Value.str "Line 1"]] rfl
    (mkTrigger 0 c4Rule [Value.str "Line 1"]) (List.mem_singleton.mpr rfl)

/-- C5 (amended): each trigger's timestamp is the wall-clock reading taken
at its own emission, so when every read of the run returns the same
instant t0 all triggers of the run share timestamp t0; the counterexample
shows the timestamps differ when the clock advances mid-run. -/
theorem c5_constant_clock_shared_timestamp (t0 : Int)
    (rules sched hourly downtime stands : List Row) (res : List Trigger)
    (hok : evaluate_rules (fun _ => t0) rules sched hourly downtime stands = .ok res) :
    ∀ t ∈ res, t.timestamp = t0 := by
  refine evaluate_rules_mem_prop (fun _ => t0) rules sched hourly downtime stands res _ ?_ hok
  intro kk rule hk
  rfl

/-- C5 witness: with a constant clock at instant 5, the first trigger of
the two-hit MISSING_STANDARD run carries timestamp 5. -/
theorem c5_timestamp_witness :
    (mkTrigger 5 c5Rule [Value.str "A", Value.str "B"]).timestamp = 5 :=
  c5_constant_clock_shared_timestamp 5 [c5Rule] [] c5Hourly [] []
    [mkTrigger 5 c5Rule [Value.str "A", Value.str "B"],
     mkTrigger 5 c5Rule [Value.str "C", Value.str "D"]] rfl
    (mkTrigger 5 c5Rule [Value.str "A", Value.str "B"]) (List.mem_cons_self _ _)

/-- C8 (amended): the evaluator is a deterministic function of its rule
table, row snapshots, and wall-clock readings — runs with equal inputs and
equal clock readings give equal trigger lists — and the parser is a
deterministic function of the condition text alone; by the counterexample,
dependence on the clock is real, so purity holds only relative to the
inputs together with the clock. -/
theorem c8_deterministic_given_inputs_and_clock
    (cl1 cl2 : Clock) (r1 r2 s1 s2 h1 h2 d1 d2 st1 st2 : List Row)
    (hc : ∀ n, cl1 n = cl2 n) (hr : r1 = r2) (hs : s1 = s2) (hh : h1 = h2)
    (hd : d1 = d2) (hst : st1 = st2) :
    evaluate_rules cl1 r1 s1 h1 d1 st1 = evaluate_rules cl2 r2 s2 h2 d2 st2 ∧
    (∀ e1 e2 : String, e1 = e2 → parse_iflogic e1 = parse_iflogic e2) := by
  have hcf : cl1 = cl2 := funext hc
  subst hcf
  subst hr
  subst hs
  subst hh
  subst hd
  subst hst
  exact ⟨rfl, fun e1 e2 he => by rw [he]⟩

/-- C8 witness: two runs with the same inputs and the same constant clock
coincide. -/
theorem c8_determinism_witness :
    evaluate_rules (fun _ => 0) [c8Rule] c8Sched [] [] [] =
      evaluate_rules (fun _ => 0) [c8Rule] c8Sched [] [] [] :=
  (c8_deterministic_given_inputs_and_clock (fun _ => 0) (fun _ => 0)
    [c8Rule] [c8Rule] c8Sched c8Sched [] [] [] [] [] []
    (fun _ => rfl) rfl rfl rfl rfl rfl).1

theorem below_run_of_front (th : ℚ) (n : Nat) {w p q : List ℚ}
    (hpq : w = p ++ q) (hb : ∀ x ∈ p, x < th) (hlen : n ≤ p.length) :
    existsRunBelow th n w := by
  refine ⟨[], p.take n, p.drop n ++ q, ?_, ?_, ?_⟩
  · rw [hpq, List.nil_append, ← List.append_assoc, List.take_append_drop]
  · rw [List.length_take]
    omega
  · intro x hx
    exact hb x (List.take_subset n p hx)

theorem belowScan_true_iff (th : ℚ) (ch : Int) (hch : 1 ≤ ch) :
    ∀ w : List ℚ, ∀ s : Nat, s < ch.toNat →
      (belowScan th ch s w = true ↔
        ((∃ p q : List ℚ, w = p ++ q ∧ (∀ x ∈ p, x < th) ∧ ch.toNat ≤ s + p.length) ∨
          existsRunBelow th ch.toNat w)) := by
  intro w
  induction w with
  | nil =>
    intro s hs
    constructor
    · intro h
      exact absurd h (by simp [belowScan])
    · rintro (⟨p, q, hpq, hb, hlen⟩ | ⟨p, mid, q, hpq, hlen, hb⟩)
      · have hl := congrArg List.length hpq
        simp at hl
        omega
      · have hl := congrArg List.length hpq
        simp at hl
        omega
  | cons v rest ih =>
    intro s hs
    by_cases hv : v < th
    · have hstep : belowScan th ch s (v :: rest) =
          (if ch ≤ ((s + 1 : Nat) : Int) then true else belowScan th ch (s + 1) rest) := by
        simp [belowScan, hv]
      by_cases hge : ch ≤ ((s + 1 : Nat) : Int)
      · rw [hstep, if_pos hge]
        simp only [true_iff]
        left
        refine ⟨[v], rest, rfl, ?_, ?_⟩
        · intro x hx
          rcases List.mem_singleton.mp hx with h1
          exact h1 ▸ hv
        · simp only [List.length_singleton]
          omega
      · rw [hstep, if_neg hge]
        have hs1 : s + 1 < ch.toNat := by omega
        rw [ih (s + 1) hs1]
        constructor
        · rintro (⟨p, q, hpq, hb, hlen⟩ | ⟨p, mid, q, hpq, hlen, hb⟩)
          · left
            refine ⟨v :: p, q, by rw [hpq]; rfl, ?_, ?_⟩
            · intro x hx
              rcases List.mem_cons.mp hx with h1 | h2
              · exact h1 ▸ hv
              · exact hb x h2
            · simp only [List.length_cons]
              omega
          · right
            exact ⟨v :: p, mid, q, by rw [hpq]; rfl, hlen, hb⟩
        · rintro (⟨p, q, hpq, hb, hlen⟩ | ⟨p, mid, q, hpq, hlen, hb⟩)
          · cases p with
            | nil =>
              simp only [List.length_nil] at hlen
              omega
            | cons a p2 =>
              rw [List.cons_append] at hpq
              have ha := List.cons.inj hpq
              left
              refine ⟨p2, q, ha.2, fun x hx => hb x (List.mem_cons_of_mem a hx), ?_⟩
              simp only [List.length_cons] at hlen
              omega
          · cases p with
            | nil =>
              cases mid with
              | nil =>
                simp only [List.length_nil] at hlen
                omega
              | cons m mid2 =>
                rw [List.nil_append, List.cons_append] at hpq
                have hm := List.cons.inj hpq
                left
                refine ⟨mid2, q, hm.2, fun x hx => hb x (List.mem_cons_of_mem m hx), ?_⟩
                simp only [List.length_cons] at hlen
                omega
            | cons a p2 =>
              rw [List.cons_append, List.cons_append] at hpq
              have ha := List.cons.inj hpq
              right
              exact ⟨p2, mid, q, ha.2, hlen, hb⟩
    · have hstep : belowScan th ch s (v :: rest) =
          (if ch ≤ ((0 : Nat) : Int) then true else belowScan th ch 0 rest) := by
        simp [belowScan, hv]
      have hc0 : ¬(ch ≤ ((0 : Nat) : Int)) := by
        simp only [Nat.cast_zero]
        omega
      rw [hstep, if_neg hc0]
      rw [ih 0 (by omega)]
      constructor
      · rintro (⟨p, q, hpq, hb, hlen⟩ | ⟨p, mid, q, hpq, hlen, hb⟩)
        · right
          have hrun : existsRunBelow th ch.toNat rest :=
            below_run_of_front th ch.toNat hpq hb (by omega)
          obtain ⟨p2, mid, q2, hpq2, hlen2, hb2⟩ := hrun
          exact ⟨v :: p2, mid, q2, by rw [hpq2]; rfl, hlen2, hb2⟩
        · right
          exact ⟨v :: p, mid, q, by rw [hpq]; rfl, hlen, hb⟩
      · rintro (⟨p, q, hpq, hb, hlen⟩ | ⟨p, mid, q, hpq, hlen, hb⟩)
        · cases p with
          | nil =>
            simp only [List.length_nil] at hlen
            omega
          | cons a p2 =>
            rw [List.cons_append] at hpq
            have ha := List.cons.inj hpq
            exact absurd (ha.1 ▸ hb a (by simp)) hv
        · cases p with
          | nil =>
            cases mid with
            | nil =>
              simp only [List.length_nil] at hlen
              omega
            | cons m mid2 =>
              rw [List.nil_append, List.cons_append] at hpq
              have hm := List.cons.inj hpq
              exact absurd (hm.1 ▸ hb m (by simp)) hv
          | cons a p2 =>
            rw [List.cons_append, List.cons_append] at hpq
            have ha := List.cons.inj hpq
            right
            exact ⟨p2, mid, q, ha.2, hlen, hb⟩

theorem belowScan_zero_iff_run (th : ℚ) (ch : Int) (hch : 1 ≤ ch) (w : List ℚ) :
    belowScan th ch 0 w = true ↔ existsRunBelow th ch.toNat w := by
  rw [belowScan_true_iff th ch hch w 0 (by omega)]
  constructor
  · rintro (⟨p, q, hpq, hb, hlen⟩ | hrun)
    · exact below_run_of_front th ch.toNat hpq hb (by omega)
    · exact hrun
  · intro hrun
    exact Or.inr hrun

theorem dictAppendK_mem_keys {d : List (Key × List ℚ)} {k : Key} {v : ℚ}
    {b : Key × List ℚ} (h : b ∈ dictAppendK d k v) : b.1 = k ∨ ∃ a ∈ d, b.1 = a.1 := by
  induction d with
  | nil =>
    simp only [dictAppendK, List.mem_singleton] at h
    left
    rw [h]
  | cons e rest ih =>
    obtain ⟨k0, vs⟩ := e
    simp only [dictAppendK] at h
    by_cases hk : k0.map normV = k.map normV
    · rw [if_pos hk] at h
      rcases List.mem_cons.mp h with h1 | h2
      · right
        exact ⟨(k0, vs), by simp, by rw [h1]⟩
      · right
        exact ⟨b, List.mem_cons_of_mem _ h2, rfl⟩
    · rw [if_neg hk] at h
      rcases List.mem_cons.mp h with h1 | h2
      · right
        exact ⟨(k0, vs), by simp, by rw [h1]⟩
      · rcases ih h2 with h3 | ⟨a, ha, h4⟩
        · left
          exact h3
        · right
          exact ⟨a, List.mem_cons_of_mem _ ha, h4⟩

theorem dictAppendK_pairwise {d : List (Key × List ℚ)} {k : Key} {v : ℚ}
    (h : d.Pairwise (fun a b => a.1.map normV ≠ b.1.map normV)) :
    (dictAppendK d k v).Pairwise (fun a b => a.1.map normV ≠ b.1.map normV) := by
  induction d with
  | nil => simp [dictAppendK]
  | cons e rest ih =>
    obtain ⟨k0, vs⟩ := e
    rcases List.pairwise_cons.mp h with ⟨h1, h2⟩
    simp only [dictAppendK]
    by_cases hk : k0.map normV = k.map normV
    · rw [if_pos hk]
      exact List.pairwise_cons.mpr ⟨h1, h2⟩
    · rw [if_neg hk]
      refine List.pairwise_cons.mpr ⟨?_, ih h2⟩
      intro b hb
      rcases dictAppendK_mem_keys hb with h3 | ⟨a, ha, h4⟩
      · rw [h3]
        exact hk
      · rw [h4]
        exact h1 a ha

theorem groupRows_pairwise (rows : List Row) (gb : List String) (metric : String) :
    (groupRows rows gb metric).Pairwise (fun a b => a.1.map normV ≠ b.1.map normV) := by
  unfold groupRows
  have hgen : ∀ acc : List (Key × List ℚ),
      acc.Pairwise (fun a b => a.1.map normV ≠ b.1.map normV) →
      (rows.foldl (fun acc r =>
        dictAppendK acc (gb.map (fun g => rowGet r g)) (to_float (rowGet r metric)))
          acc).Pairwise (fun a b => a.1.map normV ≠ b.1.map normV) := by
    induction rows with
    | nil => intro acc h0; simpa using h0
    | cons r rest ih =>
      intro acc h0
      simp only [List.foldl_cons]
      exact ih _ (dictAppendK_pairwise h0)
  exact hgen [] (by simp)

/-- C6 (amended): with hours ≥ 1, a group's key is reported by CONSEC_BELOW
exactly when SOME run of `hours` consecutive strictly-below-threshold
samples occurs among the group's most recent 2×hours samples in arrival
order — not necessarily a trailing run; the claim's examples stand: values
[0.9, 0.6, 0.6, 0.9] with threshold 0.7 are a hit for hours = 2 and not for
hours = 3. -/
theorem c6_consec_below_any_run_iff (rows : List Row) (th : ℚ) (ch : Int)
    (gb : List String) (metric : String) (key : Key) (values : List ℚ)
    (hch : 1 ≤ ch) (hmem : (key, values) ∈ groupRows rows gb metric) :
    (keyMem key (consecutive_below rows th ch gb metric) ↔
      existsRunBelow th ch.toNat (pySliceFrom (-ch * 2) values)) ∧
    keyMem [Value.str "Line 1"] (consecutive_below c6Rows q07 2 ["Line"] "TargetAttain") ∧
    ¬ keyMem [Value.str "Line 1"] (consecutive_below c6Rows q07 3 ["Line"] "TargetAttain") := by
  refine ⟨?_, by decide, by decide⟩
  rw [← belowScan_zero_iff_run th ch hch]
  unfold consecutive_below
  constructor
  · intro hm
    unfold keyMem at hm
    rcases List.mem_map.mp hm with ⟨x, hx, hmap⟩
    rcases List.mem_filterMap.mp hx with ⟨p, hp, hfp⟩
    by_cases hscan : belowScan th ch 0 (pySliceFrom (-ch * 2) p.2) = true
    · rw [if_pos hscan] at hfp
      have hx1 : p.1 = x := Option.some.inj hfp
      by_cases hpe : p = (key, values)
      · rw [hpe] at hscan
        exact hscan
      · have hsymm : Symmetric (fun a b : Key × List ℚ =>
            a.1.map normV ≠ b.1.map normV) := fun a b hab => hab.symm
        have hne := (groupRows_pairwise rows gb metric).forall hsymm hp hmem hpe
        exact absurd (hx1 ▸ hmap) hne
    · rw [if_neg hscan] at hfp
      exact absurd hfp (by simp)
  · intro hscan
    unfold keyMem
    refine List.mem_map.mpr ⟨key, List.mem_filterMap.mpr ⟨(key, values), hmem, ?_⟩, rfl⟩
    simp only [hscan, if_pos]

/-- C6 witness: the amended equivalence applied to the claim's example
group: the hit for hours = 2 is exactly the existence of a length-2 run of
below-0.7 values in the last four samples. -/
theorem c6_consec_below_witness :
    (keyMem [Value.str "Line 1"] (consecutive_below c6Rows q07 2 ["Line"] "TargetAttain") ↔
      existsRunBelow q07 (2 : Int).toNat (pySliceFrom (-(2 : Int) * 2) [q09, q06, q06, q09])) ∧
    keyMem [Value.str "Line 1"] (consecutive_below c6Rows q07 2 ["Line"] "TargetAttain") ∧
    ¬ keyMem [Value.str "Line 1"] (consecutive_below c6Rows q07 3 ["Line"] "TargetAttain") :=
  c6_consec_below_any_run_iff c6Rows q07 2 ["Line"] "TargetAttain"
    [Value.str "Line 1"] [q09, q06, q06, q09] (by norm_num) (by decide)

theorem takeWhile_append_all (p : Char → Bool) (a b : List Char)
    (h : ∀ c ∈ a, p c = true) : (a ++ b).takeWhile p = a ++ b.takeWhile p := by
  induction a with
  | nil => simp
  | cons c rest ih =>
    have hc : p c = true := h c (by simp)
    simp only [List.cons_append, List.takeWhile_cons, hc, if_true]
    rw [ih (fun x hx => h x (List.mem_cons_of_mem c hx))]

theorem dropWhile_append_all (p : Char → Bool) (a b : List Char)
    (h : ∀ c ∈ a, p c = true) : (a ++ b).dropWhile p = b.dropWhile p := by
  induction a with
  | nil => simp
  | cons c rest ih =>
    have hc : p c = true := h c (by simp)
    simp only [List.cons_append, List.dropWhile_cons, hc, if_true]
    exact ih (fun x hx => h x (List.mem_cons_of_mem c hx))

theorem dropWhile_takeWhile_nil (p : Char → Bool) (l : List Char) :
    (l.dropWhile p).takeWhile p = [] := by
  induction l with
  | nil => rfl
  | cons c rest ih =>
    rw [List.dropWhile_cons]
    by_cases hc : p c = true
    · rw [if_pos hc]
      exact ih
    · rw [if_neg hc]
      rw [List.takeWhile_cons, if_neg hc]

theorem take_one_eq {l : List Char} {x : Char} (h : l.take 1 = [x]) :
    l = x :: l.drop 1 := by
  cases l with
  | nil => exact absurd h (by simp)
  | cons a rest =>
    have ha : a = x := by
      have := h
      simp only [List.take_succ_cons, List.take_zero] at this
      exact (List.cons.inj this).1
    rw [ha]
    rfl

theorem splitFirstEq_isSome_iff : ∀ p : List Char,
    ((splitFirstEq p).isSome = true ↔ '=' ∈ p) := by
  intro p
  have hiso : ∀ {α : Type} (b : Bool) (x : α),
      (if b = true then (Option.none : Option α) else some x).isSome = !b := by
    intro α b x
    cases b <;> simp
  induction p with
  | nil => simp [splitFirstEq]
  | cons c rest ih =>
    by_cases hc : c = '='
    · subst hc
      constructor
      · intro _
        simp
      · intro _
        unfold splitFirstEq
        rw [List.dropWhile_cons]
        simp
    · have hd : (c :: rest).dropWhile (fun x => x ≠ '=') =
          rest.dropWhile (fun x => x ≠ '=') := by
        rw [List.dropWhile_cons]
        simp [hc]
      unfold splitFirstEq at ih ⊢
      rw [hd, hiso]
      rw [hiso] at ih
      constructor
      · intro h
        exact List.mem_cons_of_mem c (ih.mp h)
      · intro h
        refine ih.mpr ?_
        rcases List.mem_cons.mp h with h1 | h2
        · exact absurd h1.symm hc
        · exact h2

theorem parseArgsGo_isOk : ∀ chunks : List (List Char), ∀ acc : Args,
    ((parseArgsGo acc chunks).isOk = true ↔
      ∀ p ∈ chunks, pyStripL p ≠ [] → '=' ∈ p) := by
  intro chunks
  induction chunks with
  | nil =>
    intro acc
    simp [parseArgsGo, Except.isOk, Except.toBool]
  | cons p rest ih =>
    intro acc
    unfold parseArgsGo
    by_cases hs : (pyStripL p).isEmpty = true
    · rw [if_pos hs]
      rw [ih acc]
      constructor
      · intro h q hq hqs
        rcases List.mem_cons.mp hq with h1 | h2
        · subst h1
          exact absurd (List.isEmpty_iff.mp hs) hqs
        · exact h q h2 hqs
      · intro h q hq hqs
        exact h q (List.mem_cons_of_mem p hq) hqs
    · rw [if_neg hs]
      cases hsp : splitFirstEq p with
      | none =>
        have hnem : '=' ∉ p := by
          intro hmem
          have h2 := (splitFirstEq_isSome_iff p).mpr hmem
          rw [hsp] at h2
          exact absurd h2 (by simp)
        constructor
        · intro h
          exact absurd h (by simp [Except.isOk, Except.toBool])
        · intro h
          have hstrip : pyStripL p ≠ [] := by
            intro h0
            rw [h0] at hs
            exact hs rfl
          exact absurd (h p (by simp) hstrip) hnem
      | some kv =>
        obtain ⟨kk, vv⟩ := kv
        rw [ih (dictSetS acc (String.mk (pyStripL kk)) (typeLit (stripQuotes (pyStripL vv))))]
        have hin : '=' ∈ p := by
          refine (splitFirstEq_isSome_iff p).mp ?_
          rw [hsp]
          rfl
        constructor
        · intro h q hq hqs
          rcases List.mem_cons.mp hq with h1 | h2
          · subst h1
            exact hin
          · exact h q h2 hqs
        · intro h q hq hqs
          exact h q (List.mem_cons_of_mem p hq) hqs

theorem extractCall_of_decomp {nm raw rest : List Char}
    (hnm : nm ≠ []) (hall : ∀ c ∈ nm, isUName c = true) (hnl : '\n' ∉ raw)
    (hrp : ')' ∉ rest.takeWhile (fun c => c ≠ '\n')) :
    extractCall (nm ++ '(' :: (raw ++ ')' :: rest)) = some (String.mk nm, raw) := by
  have hop : isUName '(' = false := by decide
  have ht : (nm ++ '(' :: (raw ++ ')' :: rest)).takeWhile isUName = nm := by
    rw [takeWhile_append_all isUName nm _ hall, List.takeWhile_cons, hop]
    simp
  have hd : (nm ++ '(' :: (raw ++ ')' :: rest)).dropWhile isUName =
      '(' :: (raw ++ ')' :: rest) := by
    rw [dropWhile_append_all isUName nm _ hall, List.dropWhile_cons, hop]
    simp
  have hraw_nl : ∀ c ∈ raw, (fun c => decide (c ≠ '\n')) c = true := by
    intro c hc
    simp only [decide_eq_true_iff]
    intro h0
    exact hnl (h0 ▸ hc)
  have hline : (raw ++ ')' :: rest).takeWhile (fun c => c ≠ '\n') =
      raw ++ ')' :: rest.takeWhile (fun c => c ≠ '\n') := by
    rw [takeWhile_append_all _ raw _ hraw_nl, List.takeWhile_cons]
    simp
  have htk_np : ∀ c ∈ (rest.takeWhile (fun c => c ≠ '\n')).reverse,
      (fun c => decide (c ≠ ')')) c = true := by
    intro c hc
    rw [List.mem_reverse] at hc
    simp only [decide_eq_true_iff]
    intro h0
    exact hrp (h0 ▸ hc)
  have hrev : (raw ++ ')' :: rest.takeWhile (fun c => c ≠ '\n')).reverse.dropWhile
      (fun c => c ≠ ')') = ')' :: raw.reverse := by
    rw [List.reverse_append, List.reverse_cons, List.append_assoc]
    rw [dropWhile_append_all _ _ _ htk_np]
    rw [List.singleton_append, List.dropWhile_cons]
    simp
  simp only [extractCall, ht, hd]
  have hnme : nm.isEmpty = false := by
    cases nm with
    | nil => exact absurd rfl hnm
    | cons a l => rfl
  rw [hnme]
  simp only [Bool.false_eq_true, if_false, List.take_succ_cons, List.take_zero,
    List.drop_succ_cons, List.drop_zero, if_true]
  rw [hline, hrev]
  simp

theorem extractCall_decomp {cs : List Char} {fn : String} {raw : List Char}
    (h : extractCall cs = some (fn, raw)) :
    ∃ nm rest : List Char,
      cs = nm ++ '(' :: (raw ++ ')' :: rest) ∧ nm ≠ [] ∧
      (∀ c ∈ nm, isUName c = true) ∧ '\n' ∉ raw ∧
      ')' ∉ rest.takeWhile (fun c => c ≠ '\n') ∧ fn = String.mk nm := by
  simp only [extractCall] at h
  split_ifs at h with h1 h2 h3
  · obtain ⟨hfn, hraw⟩ := Prod.mk.inj (Option.some.inj h)
    have hr := take_one_eq h2
    have hrev := take_one_eq h3
    have hcs : cs = cs.takeWhile isUName ++ '(' :: (cs.dropWhile isUName).drop 1 := by
      conv_lhs => rw [← List.takeWhile_append_dropWhile (p := isUName) (l := cs)]
      conv_lhs => rw [hr]
    have hline : ((cs.dropWhile isUName).drop 1).takeWhile (fun c => c ≠ '\n') =
        raw ++ ')' :: ((((cs.dropWhile isUName).drop 1).takeWhile
          (fun c => c ≠ '\n')).reverse.takeWhile (fun c => c ≠ ')')).reverse := by
      conv_lhs => rw [← List.reverse_reverse (((cs.dropWhile isUName).drop 1).takeWhile
        (fun c => c ≠ '\n'))]
      conv_lhs =>
        rw [← List.takeWhile_append_dropWhile (p := fun c => decide (c ≠ ')'))
          (l := (((cs.dropWhile isUName).drop 1).takeWhile (fun c => c ≠ '\n')).reverse)]
      conv_lhs => rw [hrev]
      rw [List.reverse_append, List.reverse_cons, hraw]
      simp [List.append_assoc]
    refine ⟨cs.takeWhile isUName,
      ((((cs.dropWhile isUName).drop 1).takeWhile (fun c => c ≠ '\n')).reverse.takeWhile
        (fun c => c ≠ ')')).reverse ++
        ((cs.dropWhile isUName).drop 1).dropWhile (fun c => c ≠ '\n'),
      ?_, ?_, ?_, ?_, ?_, hfn.symm⟩
    · conv_lhs => rw [hcs]
      congr 1
      congr 1
      conv_lhs =>
        rw [← List.takeWhile_append_dropWhile (p := fun c => decide (c ≠ '\n'))
          (l := (cs.dropWhile isUName).drop 1)]
      conv_lhs => rw [hline]
      simp [List.append_assoc]
    · intro h0
      rw [h0] at h1
      exact h1 rfl
    · intro c hc
      exact List.mem_takeWhile_imp hc
    · intro hmem
      have hc1 : '\n' ∈ ((cs.dropWhile isUName).drop 1).takeWhile (fun c => c ≠ '\n') := by
        rw [hline]
        exact List.mem_append.mpr (Or.inl hmem)
      have := List.mem_takeWhile_imp hc1
      simp at this
    · intro hmem
      have htk_nl : ∀ c ∈ ((((cs.dropWhile isUName).drop 1).takeWhile
          (fun c => c ≠ '\n')).reverse.takeWhile (fun c => c ≠ ')')).reverse,
          (fun c => decide (c ≠ '\n')) c = true := by
        intro c hc
        rw [List.mem_reverse] at hc
        have hc2 : c ∈ (((cs.dropWhile isUName).drop 1).takeWhile
            (fun c => c ≠ '\n')).reverse := List.takeWhile_subset _ hc
        rw [List.mem_reverse] at hc2
        simpa using List.mem_takeWhile_imp hc2
      rw [takeWhile_append_all _ _ _ htk_nl] at hmem
      rcases List.mem_append.mp hmem with hA | hB
      · rw [List.mem_reverse] at hA
        have := List.mem_takeWhile_imp hA
        simp at this
      · rw [dropWhile_takeWhile_nil] at hB
        cases hB

/-- C7 (amended): `parse_call` succeeds on exactly the strings whose
stripped text decomposes as a nonempty [A-Z_]+ name, "(", a newline-free
raw segment, and a ")" that is the last ")" on that line (text after it is
tolerated — `re.match` anchors only the start), with every argument chunk
of the raw segment either stripping to empty or containing "=". -/
theorem c7_parse_call_success_iff (s : String) :
    (parse_call s).isOk = true ↔
      ∃ nm raw rest : List Char,
        (pyStrip s).toList = nm ++ '(' :: (raw ++ ')' :: rest) ∧
        nm ≠ [] ∧ (∀ c ∈ nm, isUName c = true) ∧
        '\n' ∉ raw ∧ ')' ∉ rest.takeWhile (fun c => c ≠ '\n') ∧
        chunksOk raw := by
  unfold parse_call
  cases hec : extractCall (pyStrip s).toList with
  | none =>
    constructor
    · intro h
      exact absurd h (by simp [Except.isOk, Except.toBool])
    · rintro ⟨nm, raw, rest, hdec, hnm, hall, hnl, hrp, hok⟩
      rw [hdec, extractCall_of_decomp hnm hall hnl hrp] at hec
      exact Option.noConfusion hec
  | some pr =>
    obtain ⟨fn, raw0⟩ := pr
    obtain ⟨nm0, rest0, hdec0, hnm0, hall0, hnl0, hrp0, hfn0⟩ := extractCall_decomp hec
    have hargs : ((match parseArgs raw0 with
        | Except.error e => Except.error e
        | Except.ok args => Except.ok (fn, args)) :
          Except String (String × Args)).isOk = (parseArgs raw0).isOk := by
      cases parseArgs raw0 with
      | error e => rfl
      | ok args => rfl
    rw [hargs]
    unfold parseArgs
    rw [parseArgsGo_isOk (splitArgsChunks raw0) []]
    constructor
    · intro h
      exact ⟨nm0, raw0, rest0, hdec0, hnm0, hall0, hnl0, hrp0, h⟩
    · rintro ⟨nm, raw, rest, hdec, hnm, hall, hnl, hrp, hok⟩
      rw [hdec, extractCall_of_decomp hnm hall hnl hrp] at hec
      obtain ⟨-, hraw⟩ := Prod.mk.inj (Option.some.inj hec)
      rw [← hraw]
      exact hok
